import Mathlib

/-!
Shallow embedding of the config-translator pipeline (lexer, parser,
constant-expression evaluator) from `src/src/lexer.py`, `src/src/parser.py`,
`src/src/evaluator.py` and `src/src/translator.py`.

Modelling conventions:
  * the Python source text is a `List Char`; the lexer's `pos` cursor becomes
    the remaining suffix of the text, `line`/`column` are threaded explicitly;
  * Python `float` values are modelled as exact rationals (`ℚ`); every numeric
    literal in the claims is exactly representable;
  * Python character classes (`isdigit`, `islower`, `isupper`, `isalnum`) are
    modelled on the ASCII range by the corresponding `Char` predicates;
  * exceptions become `Except`; each distinct `raise` site gets its own
    error constructor;
  * the `Evaluator` object's mutable `self.constants` dictionary becomes an
    explicitly threaded association list with Python-dict insertion semantics
    (update-in-place for an existing key, append for a new one).
-/

namespace CT

/-- Token kinds, mirroring `TokenType` in `lexer.py`. -/
inductive TokenType where
  | NUMBER | NAME
  | LBRACKET | RBRACKET | LBRACE | RBRACE | LPAREN | RPAREN
  | SEMICOLON | EQUALS | ASSIGN | DOT
  | PLUS | MINUS
  | SORT
  | EOF | NEWLINE
  deriving DecidableEq, Repr

/-- The dynamically-typed `value` field of a Python `Token`. -/
inductive TokenValue where
  | num (q : ℚ)
  | str (s : String)
  | none
  deriving DecidableEq, Repr

/-- `Token` dataclass from `lexer.py`: kind, value, 1-based line and column. -/
structure Token where
  type : TokenType
  value : TokenValue
  line : Nat
  column : Nat
  deriving DecidableEq, Repr

/-- The distinct `LexerError` raise sites in `lexer.py`.  `outOfFuel` is an
artifact of the embedding (the scanning loop is given `length + 1` fuel,
which it can never exhaust since every iteration consumes at least one
character; see `lexGo_eq`). -/
inductive LexErrKind where
  | unterminatedComment
  | invalidChar (ch : Char)
  | unexpectedChar (ch : Char)
  | outOfFuel
  deriving DecidableEq, Repr

/-- `LexerError` with its message kind and 1-based position. -/
structure LexErr where
  kind : LexErrKind
  line : Nat
  column : Nat
  deriving DecidableEq, Repr

/-- Numeric value denoted by a digit string (`int(num_str)` accumulation). -/
def digitsToNat (ds : List Char) : Nat :=
  ds.foldl (fun n ch => 10 * n + (ch.toNat - 48)) 0

/-- The digit-collecting loops of `Lexer.read_number`: split off the maximal
run of leading digits. -/
def readDigits : List Char → List Char × List Char
  | [] => ([], [])
  | ch :: rest =>
    if ch.isDigit then
      let p := readDigits rest
      (ch :: p.1, p.2)
    else ([], ch :: rest)

/-- Value of a numeric literal string, i.e. Python `float(num_str)` for a
string of digits optionally followed by `.` and further digits, modelled
exactly in `ℚ`. -/
def litToRat (s : List Char) : ℚ :=
  let p := readDigits s
  match p.2 with
  | '.' :: fs => (digitsToNat p.1 : ℚ) + (digitsToNat fs : ℚ) / (10 : ℚ) ^ fs.length
  | _ => (digitsToNat p.1 : ℚ)

/-- `Lexer.skip_single_line_comment`'s scanning loop: consume characters up to
(but not including) the next newline, tracking the column. -/
def skipLine : List Char → Nat → List Char × Nat
  | [], c => ([], c)
  | ch :: r, c => if ch = '\n' then (ch :: r, c) else skipLine r (c + 1)

/-- `Lexer.skip_multi_line_comment`'s scanning loop after the opening `<#`:
consume up to and including the first `#>`, or fail at end of input. -/
def skipBlock : List Char → Nat → Nat → Except LexErr (List Char × Nat × Nat)
  | [], l, c => .error ⟨.unterminatedComment, l, c⟩
  | ch :: r, l, c =>
    if ch = '#' ∧ r.head? = some '>' then .ok (r.tail, l, c + 2)
    else if ch = '\n' then skipBlock r (l + 1) 1
    else skipBlock r l (c + 1)

/-- `Lexer.read_number`: integer part, optional `.` and fractional digits;
returns the NUMBER token, the remaining text and the new column. -/
def readNumber (s : List Char) (l c : Nat) : Token × List Char × Nat :=
  let p := readDigits s
  if p.2.head? = some '.' then
    let q := readDigits p.2.tail
    (⟨.NUMBER, .num (litToRat (p.1 ++ '.' :: q.1)), l, c⟩, q.2, c + p.1.length + 1 + q.1.length)
  else (⟨.NUMBER, .num (litToRat p.1), l, c⟩, p.2, c + p.1.length)

/-- The continuation-character loop of `Lexer.read_name`: subsequent
characters may be alphanumeric or underscore; an uppercase letter among them
is an error.  On error returns the offending character and how many
continuation characters were consumed before it. -/
def readNameChars : List Char → Except (Char × Nat) (List Char × List Char)
  | [] => .ok ([], [])
  | ch :: rest =>
    if ch.isAlphanum || ch = '_' then
      if ch.isUpper then .error (ch, 0)
      else
        match readNameChars rest with
        | .ok (nm, r) => .ok (ch :: nm, r)
        | .error (u, k) => .error (u, k + 1)
    else .ok ([], ch :: rest)

/-- The main scanning loop of `Lexer.tokenize`, with `skip_whitespace`
inlined one character at a time (Python skips a maximal whitespace run at the
top of each iteration; consuming whitespace characters one loop step at a
time reaches the same states).  Dispatch order follows the source: comments,
numbers, names, then the punctuation chain, then the error case.  The `Nat`
fuel makes the recursion structural; every iteration consumes at least one
character, so `length + 1` fuel always suffices (`lexGo_eq`). -/
def lexGo : Nat → List Char → Nat → Nat → Except LexErr (List Token)
  | 0, _, _, _ => .error ⟨.outOfFuel, 0, 0⟩
  | _ + 1, [], l, c => .ok [⟨.EOF, .none, l, c⟩]
  | fuel + 1, ch :: rest, l, c =>
    if ch = ' ' ∨ ch = '\t' ∨ ch = '\r' then lexGo fuel rest l (c + 1)
    else if ch = '\n' then lexGo fuel rest (l + 1) 1
    else if ch = ':' ∧ rest.head? = some ':' then
      let p := skipLine rest.tail (c + 2)
      lexGo fuel p.1 l p.2
    else if ch = '<' ∧ rest.head? = some '#' then
      match skipBlock rest.tail l (c + 2) with
      | .error e => .error e
      | .ok (r2, l2, c2) => lexGo fuel r2 l2 c2
    else if ch.isDigit then
      let p := readNumber (ch :: rest) l c
      (lexGo fuel p.2.1 l p.2.2).map (fun ts => p.1 :: ts)
    else if ch.isLower then
      match readNameChars rest with
      | .error (u, k) => .error ⟨.invalidChar u, l, c + 1 + k⟩
      | .ok (nm, r2) =>
        let name := String.mk (ch :: nm)
        let tt := if name = "sort" then TokenType.SORT else TokenType.NAME
        (lexGo fuel r2 l (c + 1 + nm.length)).map (fun ts => ⟨tt, .str name, l, c⟩ :: ts)
    else if ch = '[' then (lexGo fuel rest l (c + 1)).map (fun ts => ⟨.LBRACKET, .str "[", l, c⟩ :: ts)
    else if ch = ']' then (lexGo fuel rest l (c + 1)).map (fun ts => ⟨.RBRACKET, .str "]", l, c⟩ :: ts)
    else if ch = '{' then (lexGo fuel rest l (c + 1)).map (fun ts => ⟨.LBRACE, .str "\x7b", l, c⟩ :: ts)
    else if ch = '}' then (lexGo fuel rest l (c + 1)).map (fun ts => ⟨.RBRACE, .str "\x7d", l, c⟩ :: ts)
    else if ch = '(' then (lexGo fuel rest l (c + 1)).map (fun ts => ⟨.LPAREN, .str "(", l, c⟩ :: ts)
    else if ch = ')' then (lexGo fuel rest l (c + 1)).map (fun ts => ⟨.RPAREN, .str ")", l, c⟩ :: ts)
    else if ch = ';' then (lexGo fuel rest l (c + 1)).map (fun ts => ⟨.SEMICOLON, .str ";", l, c⟩ :: ts)
    else if ch = '=' then (lexGo fuel rest l (c + 1)).map (fun ts => ⟨.EQUALS, .str "=", l, c⟩ :: ts)
    else if ch = '<' ∧ rest.head? = some '-' then
      (lexGo fuel rest.tail l (c + 2)).map (fun ts => ⟨.ASSIGN, .str "<-", l, c⟩ :: ts)
    else if ch = '.' then (lexGo fuel rest l (c + 1)).map (fun ts => ⟨.DOT, .str ".", l, c⟩ :: ts)
    else if ch = '+' then (lexGo fuel rest l (c + 1)).map (fun ts => ⟨.PLUS, .str "+", l, c⟩ :: ts)
    else if ch = '-' then (lexGo fuel rest l (c + 1)).map (fun ts => ⟨.MINUS, .str "-", l, c⟩ :: ts)
    else .error ⟨.unexpectedChar ch, l, c⟩

/-- The scanning loop at its canonical fuel. -/
def lexLoop (s : List Char) (l c : Nat) : Except LexErr (List Token) :=
  lexGo (s.length + 1) s l c

/-- `Lexer.tokenize`: run the scanning loop from line 1, column 1. -/
def tokenize (s : List Char) : Except LexErr (List Token) :=
  lexLoop s 1 1

/-! ## Parser (`parser.py`) -/
/-- Extract the string payload of a token value (NAME/SORT tokens produced by
the lexer always carry a string; the default covers values the lexer never
produces). -/
def TokenValue.sval : TokenValue → String
  | .str s => s
  | _ => ""

/-- Extract the numeric payload of a token value (NUMBER tokens produced by
the lexer always carry a number). -/
def TokenValue.qval : TokenValue → ℚ
  | .num q => q
  | _ => 0

/-- AST node variants from `parser.py` (`NumberNode`, `NameNode`, `ArrayNode`,
`DictNode`, `ConstDeclarationNode`, `ConstExpressionNode`).  A `DictNode`'s
pairs keep Python-dict insertion order. -/
inductive Node where
  | number (v : ℚ)
  | name (s : String)
  | array (elems : List Node)
  | dict (pairs : List (String × Node))
  | constDecl (nm : String) (value : Node)
  | constExpr (tokens : List Token)
  deriving Repr

/-- The distinct `ParseError` raise sites in `parser.py`. -/
inductive ParseErrKind where
  | expected (want got : TokenType)          -- `eat` mismatch
  | unexpectedValueToken (got : TokenType)   -- `parse_value` fallthrough
  | expectedSemiOrRBracket (got : TokenType)
  | expectedKeyName (got : TokenType)
  | expectedSemiOrRBrace (got : TokenType)
  | expectedDotAfterExpr                     -- after a constant expression
  | noneCrash       -- Python would crash reading `.type` of `current_token = None`;
                    -- unreachable on lexer output, which always ends with EOF
  | fuelExhausted   -- recursion fuel ran out; never happens for the runs below
  deriving DecidableEq, Repr

/-- `ParseError`: message kind plus the offending token (`None` when input
ended). -/
structure ParseErr where
  kind : ParseErrKind
  tok : Option Token
  deriving DecidableEq, Repr

/-- `Parser.eat`: consume one token of the expected type. -/
def eat (want : TokenType) : List Token → Except ParseErr (Token × List Token)
  | [] => .error ⟨.noneCrash, Option.none⟩
  | t :: ts => if t.type = want then .ok (t, ts) else .error ⟨.expected want t.type, some t⟩

/-- Python-dict assignment on an insertion-ordered association list: update
an existing key in place, otherwise append. -/
def pyUpsert {α : Type} : List (String × α) → String → α → List (String × α)
  | [], k, v => [(k, v)]
  | (k', v') :: t, k, v => if k' = k then (k', v) :: t else (k', v') :: pyUpsert t k v

/-- Python-dict key lookup on an insertion-ordered association list. -/
def pyLookup {α : Type} : List (String × α) → String → Option α
  | [], _ => Option.none
  | (k, v) :: t, key => if k = key then some v else pyLookup t key

/-!
The recursive-descent parser.  The Python methods walk an index over the
token buffer; here each function takes the remaining token suffix and
returns the parsed node plus the unconsumed suffix.  A `fuel` argument makes
the mutual recursion structural; `translateProg` below supplies
`4 * length + 8`, which the call structure never exhausts (every recursive
call either consumes a token or descends a fixed chain of length at most 3).
-/
mutual

/-- `Parser.parse_value`. -/
def parseValue : Nat → List Token → Except ParseErr (Node × List Token)
  | 0, _ => .error ⟨.fuelExhausted, Option.none⟩
  | _ + 1, [] => .error ⟨.noneCrash, Option.none⟩
  | fuel + 1, t :: ts =>
    match t.type with
    | .NUMBER => .ok (.number t.value.qval, ts)
    | .NAME => .ok (.name t.value.sval, ts)
    | .LBRACKET => parseArray fuel (t :: ts)
    | .LBRACE => parseDict fuel (t :: ts)
    | .DOT => parseConstExpr fuel (t :: ts)
    | _ => .error ⟨.unexpectedValueToken t.type, some t⟩

/-- `Parser.parse_array` up to the empty-array check. -/
def parseArray : Nat → List Token → Except ParseErr (Node × List Token)
  | 0, _ => .error ⟨.fuelExhausted, Option.none⟩
  | fuel + 1, ts => do
    let (_, ts1) ← eat .LBRACKET ts
    match ts1 with
    | [] => .error ⟨.noneCrash, Option.none⟩
    | t :: ts' =>
      if t.type = .RBRACKET then .ok (.array [], ts')
      else parseArrayLoop fuel ts1 []

/-- The element loop of `Parser.parse_array` (`while True: ...`), including
the final `eat(RBRACKET)` on break. -/
def parseArrayLoop : Nat → List Token → List Node → Except ParseErr (Node × List Token)
  | 0, _, _ => .error ⟨.fuelExhausted, Option.none⟩
  | fuel + 1, ts, acc => do
    let (v, ts1) ← parseValue fuel ts
    match ts1 with
    | [] => .error ⟨.noneCrash, Option.none⟩
    | t :: ts' =>
      if t.type = .SEMICOLON then
        match ts' with
        | [] => .error ⟨.noneCrash, Option.none⟩
        | t2 :: ts'' =>
          if t2.type = .RBRACKET then .ok (.array (acc ++ [v]), ts'')
          else parseArrayLoop fuel ts' (acc ++ [v])
      else if t.type = .RBRACKET then .ok (.array (acc ++ [v]), ts')
      else .error ⟨.expectedSemiOrRBracket t.type, some t⟩

/-- `Parser.parse_dict` up to the empty-dict check. -/
def parseDict : Nat → List Token → Except ParseErr (Node × List Token)
  | 0, _ => .error ⟨.fuelExhausted, Option.none⟩
  | fuel + 1, ts => do
    let (_, ts1) ← eat .LBRACE ts
    match ts1 with
    | [] => .error ⟨.noneCrash, Option.none⟩
    | t :: ts' =>
      if t.type = .RBRACE then .ok (.dict [], ts')
      else parseDictLoop fuel ts1 []

/-- The pair loop of `Parser.parse_dict`, including the final `eat(RBRACE)`
on break.  Duplicate keys overwrite in place (Python dict assignment). -/
def parseDictLoop : Nat → List Token → List (String × Node) →
    Except ParseErr (Node × List Token)
  | 0, _, _ => .error ⟨.fuelExhausted, Option.none⟩
  | fuel + 1, ts, acc =>
    match ts with
    | [] => .error ⟨.noneCrash, Option.none⟩
    | t :: ts' =>
      if t.type = .NAME then do
        let (_, ts2) ← eat .EQUALS ts'
        let (v, ts3) ← parseValue fuel ts2
        let acc' := pyUpsert acc t.value.sval v
        match ts3 with
        | [] => .error ⟨.noneCrash, Option.none⟩
        | t2 :: ts4 =>
          if t2.type = .SEMICOLON then
            match ts4 with
            | [] => .error ⟨.noneCrash, Option.none⟩
            | t3 :: ts5 =>
              if t3.type = .RBRACE then .ok (.dict acc', ts5)
              else parseDictLoop fuel ts4 acc'
          else if t2.type = .RBRACE then .ok (.dict acc', ts4)
          else .error ⟨.expectedSemiOrRBrace t2.type, some t2⟩
      else .error ⟨.expectedKeyName t.type, some t⟩

/-- `Parser.parse_const_expression`: eat `.` and `(`, then capture. -/
def parseConstExpr : Nat → List Token → Except ParseErr (Node × List Token)
  | 0, _ => .error ⟨.fuelExhausted, Option.none⟩
  | fuel + 1, ts => do
    let (_, ts1) ← eat .DOT ts
    let (_, ts2) ← eat .LPAREN ts1
    captureExpr fuel ts2 1 []

/-- The raw-token capture loop of `Parser.parse_const_expression`: track
parenthesis depth, store tokens verbatim while the depth stays positive,
consume the matching close, then require a terminating `.`. -/
def captureExpr : Nat → List Token → Nat → List Token →
    Except ParseErr (Node × List Token)
  | 0, _, _, _ => .error ⟨.fuelExhausted, Option.none⟩
  | fuel + 1, ts, count, acc =>
    match ts with
    | [] => .error ⟨.expectedDotAfterExpr, Option.none⟩
    | t :: ts' =>
      let count' := if t.type = .LPAREN then count + 1
                    else if t.type = .RPAREN then count - 1
                    else count
      if count' > 0 then captureExpr fuel ts' count' (acc ++ [t])
      else
        match ts' with
        | [] => .error ⟨.expectedDotAfterExpr, Option.none⟩
        | d :: ts'' =>
          if d.type = .DOT then .ok (.constExpr acc, ts'')
          else .error ⟨.expectedDotAfterExpr, some d⟩

/-- `Parser.parse_statement`: a leading NAME followed by `<-` becomes a
declaration; otherwise the name token is un-consumed and re-parsed as a
value. -/
def parseStatement : Nat → List Token → Except ParseErr (Node × List Token)
  | 0, _ => .error ⟨.fuelExhausted, Option.none⟩
  | fuel + 1, ts =>
    match ts with
    | [] => .error ⟨.noneCrash, Option.none⟩
    | t :: ts' =>
      if t.type = .NAME then
        match ts' with
        | [] => .error ⟨.noneCrash, Option.none⟩
        | t2 :: ts'' =>
          if t2.type = .ASSIGN then
            (parseValue fuel ts'').map (fun p => (.constDecl t.value.sval p.1, p.2))
          else parseValue fuel (t :: ts')
      else parseValue fuel ts

/-- `Parser.parse`: statements until the end marker, consuming an optional
trailing semicolon after each. -/
def parseProgram : Nat → List Token → Except ParseErr (List Node × List Token)
  | 0, _ => .error ⟨.fuelExhausted, Option.none⟩
  | fuel + 1, ts =>
    match ts with
    | [] => .ok ([], [])
    | t :: _ =>
      if t.type = .EOF then .ok ([], ts)
      else do
        let (stmt, ts1) ← parseStatement fuel ts
        let ts2 := match ts1 with
                   | t2 :: rest => if t2.type = .SEMICOLON then rest else t2 :: rest
                   | [] => []
        let (stmts, ts3) ← parseProgram fuel ts2
        .ok (stmt :: stmts, ts3)

end

/-- Fuel bound used when invoking the parser. -/
def parseFuel (ts : List Token) : Nat := 4 * ts.length + 8

/-- Run the parser on a token list (the `Parser(tokens).parse()` call). -/
def parseTokens (ts : List Token) : Except ParseErr (List Node) :=
  (parseProgram (parseFuel ts) ts).map (fun p => p.1)

/-! ## Evaluator (`evaluator.py`) -/
/-- The three runtime kinds (Python `float`, `list`, `dict`), used in
type-mismatch messages. -/
inductive VKind where
  | number | sequence | mapping
  deriving DecidableEq, Repr

/-- Resolved values: numbers, sequences, insertion-ordered mappings. -/
inductive Value where
  | num (q : ℚ)
  | seq (elems : List Value)
  | dict (pairs : List (String × Value))
  deriving Repr

/-- Runtime kind of a value (`type(x)` in the error messages). -/
def Value.kind : Value → VKind
  | .num _ => .number
  | .seq _ => .sequence
  | .dict _ => .mapping

/-- The distinct `EvaluationError` raise sites in `evaluator.py`, plus the
plain Python `TypeError` that `sorted` raises on incomparable elements. -/
inductive EvalErr where
  | stackUnderflowSort (tok : Token)
  | sortExpectsArray (tok : Token)
  | unknownConst (nm : String) (tok : Option Token)
  | stackUnderflowPlus (tok : Token)
  | typeMismatchPlus (a b : VKind) (tok : Token)
  | stackUnderflowMinus (tok : Token)
  | typeMismatchMinus (a b : VKind) (tok : Token)
  | unexpectedToken (tt : TokenType) (tok : Token)
  | malformedExpr (n : Nat)
  | unknownNodeType
  | pyTypeError
  deriving Repr

mutual

/-- Python `<` on runtime values: numeric comparison on numbers,
lexicographic on lists, `TypeError` (modelled as `.error ()`) otherwise. -/
def pyLt : Value → Value → Except Unit Bool
  | .num a, .num b => .ok (decide (a < b))
  | .seq xs, .seq ys => pyLtList xs ys
  | _, _ => .error ()
termination_by a b => sizeOf a + sizeOf b

/-- Python `<` on lists: lexicographic. -/
def pyLtList : List Value → List Value → Except Unit Bool
  | [], [] => .ok false
  | [], _ :: _ => .ok true
  | _ :: _, [] => .ok false
  | x :: xs, y :: ys => do
    let b ← pyLt x y
    if b then .ok true
    else do
      let b2 ← pyLt y x
      if b2 then .ok false else pyLtList xs ys
termination_by xs ys => sizeOf xs + sizeOf ys

end

/-- Insert a value into an already-sorted list using Python `<`. -/
def pyInsertSorted (v : Value) : List Value → Except Unit (List Value)
  | [] => .ok [v]
  | x :: xs => do
    let b ← pyLt v x
    if b then .ok (v :: x :: xs)
    else do
      let r ← pyInsertSorted v xs
      .ok (x :: r)

/-- Model of Python `sorted`: ascending by `<`, raising `TypeError` when an
executed comparison is between incomparable values.  (Timsort may compare
pairs in a different order, but no claim in this development depends on the
error behaviour of this function.) -/
def pySorted : List Value → Except Unit (List Value)
  | [] => .ok []
  | x :: xs => do
    let r ← pySorted xs
    pyInsertSorted x r

/-- One iteration of the token loop in `Evaluator.evaluate_expression`.
The operand stack is a list with its head as the top of stack. -/
def evalExprStep (env : List (String × Value)) (stack : List Value) (t : Token) :
    Except EvalErr (List Value) :=
  match t.type with
  | .NUMBER => .ok (.num t.value.qval :: stack)
  | .NAME =>
    if t.value = .str "sort" then
      match stack with
      | [] => .error (.stackUnderflowSort t)
      | v :: rest =>
        match v with
        | .seq elems =>
          match pySorted elems with
          | .ok es => .ok (.seq es :: rest)
          | .error _ => .error .pyTypeError
        | _ => .error (.sortExpectsArray t)
    else
      match pyLookup env t.value.sval with
      | some v => .ok (v :: stack)
      | Option.none => .error (.unknownConst t.value.sval (some t))
  | .PLUS =>
    match stack with
    | b :: a :: rest =>
      match a, b with
      | .num x, .num y => .ok (.num (x + y) :: rest)
      | .seq xs, .seq ys => .ok (.seq (xs ++ ys) :: rest)
      | _, _ => .error (.typeMismatchPlus a.kind b.kind t)
    | _ => .error (.stackUnderflowPlus t)
  | .MINUS =>
    match stack with
    | b :: a :: rest =>
      match a, b with
      | .num x, .num y => .ok (.num (x - y) :: rest)
      | _, _ => .error (.typeMismatchMinus a.kind b.kind t)
    | _ => .error (.stackUnderflowMinus t)
  | _ => .error (.unexpectedToken t.type t)

/-- The token loop of `Evaluator.evaluate_expression`. -/
def evalExprGo (env : List (String × Value)) :
    List Token → List Value → Except EvalErr (List Value)
  | [], stack => .ok stack
  | t :: ts, stack => do
    let s' ← evalExprStep env stack t
    evalExprGo env ts s'

/-- `Evaluator.evaluate_expression`: run the loop on an empty stack, then
require exactly one remaining value. -/
def evaluateExpression (env : List (String × Value)) (ts : List Token) :
    Except EvalErr Value := do
  let s ← evalExprGo env ts []
  match s with
  | [v] => .ok v
  | _ => .error (.malformedExpr s.length)

mutual

/-- `Evaluator.evaluate_node`. -/
def evalNode (env : List (String × Value)) : Node → Except EvalErr Value
  | .number v => .ok (.num v)
  | .name nm =>
    match pyLookup env nm with
    | some v => .ok v
    | Option.none => .error (.unknownConst nm Option.none)
  | .array elems => (evalNodeList env elems).map .seq
  | .dict pairs => (evalNodePairs env pairs).map .dict
  | .constExpr ts => evaluateExpression env ts
  | .constDecl _ _ => .error .unknownNodeType

/-- Element-wise evaluation of an `ArrayNode`. -/
def evalNodeList (env : List (String × Value)) : List Node → Except EvalErr (List Value)
  | [] => .ok []
  | n :: ns => do
    let v ← evalNode env n
    let vs ← evalNodeList env ns
    .ok (v :: vs)

/-- Per-key evaluation of a `DictNode`, preserving insertion order. -/
def evalNodePairs (env : List (String × Value)) :
    List (String × Node) → Except EvalErr (List (String × Value))
  | [] => .ok []
  | (k, n) :: ps => do
    let v ← evalNode env n
    let vs ← evalNodePairs env ps
    .ok ((k, v) :: vs)

end

/-- The statement fold of `Evaluator.evaluate_all`, threading the `results`
output dict and the `constants` environment (`self.constants`). -/
def evaluateAllGo : List Node → List (String × Value) → List (String × Value) →
    Except EvalErr (List (String × Value) × List (String × Value))
  | [], results, env => .ok (results, env)
  | n :: ns, results, env =>
    match n with
    | .constDecl nm vnode => do
      let v ← evalNode env vnode
      evaluateAllGo ns (pyUpsert results nm v) (pyUpsert env nm v)
    | other => do
      let v ← evalNode env other
      evaluateAllGo ns (pyUpsert results ("unnamed_" ++ toString results.length) v) env

/-- `Evaluator.evaluate_all`: returns the output mapping together with the
final constant environment. -/
def evaluateAll (nodes : List Node) (env : List (String × Value)) :
    Except EvalErr (List (String × Value) × List (String × Value)) :=
  evaluateAllGo nodes [] env

/-! ## Translator (`translator.py`) -/
/-- `TranslationError`, tagged by the failing stage. -/
inductive TransErr where
  | lex (e : LexErr)
  | parse (e : ParseErr)
  | eval (e : EvalErr)
  deriving Repr

/-- `Translator.translate` up to (but excluding) the YAML serialization:
lex, parse, evaluate with a fresh empty environment, and return the ordered
output mapping.  (The source lexes twice — once directly and once inside
`parse_text` — with identical results, since lexing is pure.) -/
def translateTokens (ts : List Token) : Except TransErr (List (String × Value)) :=
  match parseTokens ts with
  | .error e => .error (.parse e)
  | .ok nodes =>
    match evaluateAll nodes [] with
    | .error e => .error (.eval e)
    | .ok (results, _) => .ok results

/-- `Translator.translate` up to (but excluding) the YAML serialization:
lex, then run the token-level stage. -/
def translateProg (s : List Char) : Except TransErr (List (String × Value)) :=
  match tokenize s with
  | .error e => .error (.lex e)
  | .ok ts => translateTokens ts

/-- Does a statement list contain a declaration of `nm`? -/
def declares (nodes : List Node) (nm : String) : Bool :=
  nodes.any (fun n => match n with | .constDecl k _ => k = nm | _ => false)

/-- A valid numeric literal: one or more digits, optionally followed by a
dot and zero or more further digits. -/
def ValidNumLit (N : List Char) : Prop :=
  (∃ ds, N = ds ∧ ds ≠ [] ∧ ∀ ch ∈ ds, ch.isDigit) ∨
  (∃ ds fs, N = ds ++ '.' :: fs ∧ ds ≠ [] ∧ (∀ ch ∈ ds, ch.isDigit) ∧ ∀ ch ∈ fs, ch.isDigit)

/-! ## Position observation machinery for comment invariance -/
/-- Zero out a token's position, keeping its kind and value. -/
def stripTok (t : Token) : Token := ⟨t.type, t.value, 0, 0⟩

/-- Observation of a lexer outcome: the error kind, or the tokens up to
positions. -/
def obsLex : Except LexErr (List Token) → Except LexErrKind (List Token)
  | .error e => .error e.kind
  | .ok ts => .ok (ts.map stripTok)

/-- Observation of a `skipBlock` outcome: the error kind, or the remaining
text. -/
def obsSB : Except LexErr (List Char × Nat × Nat) → Except LexErrKind (List Char)
  | .error e => .error e.kind
  | .ok (r, _, _) => .ok r

/-- The text of a block comment must not contain the closing marker `#>`. -/
def noCloseMarker : List Char → Bool
  | [] => true
  | [_] => true
  | x :: y :: r => if x = '#' ∧ y = '>' then false else noCloseMarker (y :: r)

mutual

/-- Zero out every token position stored inside an AST node. -/
def stripNode : Node → Node
  | .number v => .number v
  | .name s => .name s
  | .array es => .array (stripNodeList es)
  | .dict ps => .dict (stripNodePairs ps)
  | .constDecl nm v => .constDecl nm (stripNode v)
  | .constExpr ts => .constExpr (ts.map stripTok)

/-- `stripNode` on a list of nodes. -/
def stripNodeList : List Node → List Node
  | [] => []
  | n :: ns => stripNode n :: stripNodeList ns

/-- `stripNode` on dict pairs. -/
def stripNodePairs : List (String × Node) → List (String × Node)
  | [] => []
  | (k, n) :: ps => (k, stripNode n) :: stripNodePairs ps

end

/-- Forget which error an `Except` failed with: observation used for the
stages whose error values embed token positions. -/
def exceptToOpt {ε α : Type} : Except ε α → Option α
  | .error _ => Option.none
  | .ok a => some a

/-- Observation of a single-node parse outcome: failure, or the node and
remaining tokens up to positions. -/
def obsParse1 : Except ParseErr (Node × List Token) → Option (Node × List Token)
  | .error _ => Option.none
  | .ok (n, r) => some (stripNode n, r.map stripTok)

/-- Observation of a statement-list parse outcome. -/
def obsParseL : Except ParseErr (List Node × List Token) → Option (List Node × List Token)
  | .error _ => Option.none
  | .ok (ns, r) => some (stripNodeList ns, r.map stripTok)

/-- Observation of an `eat` outcome. -/
def obsEat : Except ParseErr (Token × List Token) → Option (Token × List Token)
  | .error _ => Option.none
  | .ok (t, r) => some (stripTok t, r.map stripTok)

/-! ## Properties and claim theorems -/

theorem skipLine_fst_le : ∀ (s : List Char) (c : Nat), (skipLine s c).1.length ≤ s.length := by
  intro s
  induction s with
  | nil => intro c; simp [skipLine]
  | cons ch r ih =>
    intro c
    by_cases h : ch = '\n' <;> simp [skipLine, h]
    exact Nat.le_succ_of_le (ih (c + 1))

theorem skipBlock_le : ∀ (s : List Char) (l c : Nat) (r : List Char) (l2 c2 : Nat),
    skipBlock s l c = .ok (r, l2, c2) → r.length ≤ s.length := by
  intro s
  induction s with
  | nil => intro l c r l2 c2 h; simp [skipBlock] at h
  | cons ch rest ih =>
    intro l c r l2 c2 h
    by_cases h1 : ch = '#' ∧ rest.head? = some '>'
    · simp [skipBlock, h1] at h
      obtain ⟨hr, -, -⟩ := h
      subst hr
      simp [List.length_tail]
      omega
    · by_cases hn : ch = '\n' <;> simp [skipBlock, h1, hn] at h
      · exact Nat.le_succ_of_le (ih _ _ _ _ _ h)
      · exact Nat.le_succ_of_le (ih _ _ _ _ _ h)

theorem readDigits_len : ∀ (s : List Char),
    (readDigits s).1.length + (readDigits s).2.length = s.length := by
  intro s
  induction s with
  | nil => simp [readDigits]
  | cons ch rest ih =>
    by_cases h : ch.isDigit <;> simp [readDigits, h]
    omega

theorem readNumber_rest_le (s : List Char) (l c : Nat) :
    (readNumber s l c).2.1.length + (readDigits s).1.length ≤ s.length := by
  unfold readNumber
  have h1 := readDigits_len s
  by_cases hp : (readDigits s).2.head? = some '.'
  · have h2 := readDigits_len (readDigits s).2.tail
    have h3 : (readDigits s).2.length = (readDigits s).2.tail.length + 1 := by
      cases hq : (readDigits s).2 with
      | nil => simp [hq] at hp
      | cons ch r2 => simp [hq]
    simp [hp]
    omega
  · simp [hp]
    omega

theorem readNameChars_le : ∀ (s : List Char) (nm r : List Char),
    readNameChars s = .ok (nm, r) → r.length ≤ s.length := by
  intro s
  induction s with
  | nil => intro nm r h; simp [readNameChars] at h; simp [h.2]
  | cons ch rest ih =>
    intro nm r h
    by_cases h1 : ch.isAlphanum || ch = '_'
    · by_cases h2 : ch.isUpper
      · simp [readNameChars, h1, h2] at h
      · simp [readNameChars, h1, h2] at h
        cases hrec : readNameChars rest with
        | ok p =>
          rw [hrec] at h
          simp at h
          obtain ⟨-, hr⟩ := h
          exact Nat.le_succ_of_le (hr ▸ ih p.1 p.2 (by rw [hrec]))
        | error e => rw [hrec] at h; simp at h
    · simp [readNameChars, h1] at h
      simp [h.2]

/-! ## Fuel adequacy for the scanning loop -/
theorem lexGo_eq : ∀ (n f1 f2 : Nat) (s : List Char) (l c : Nat),
    s.length < f1 → s.length < f2 → s.length ≤ n →
    lexGo f1 s l c = lexGo f2 s l c := by
  intro n
  induction n with
  | zero =>
    intro f1 f2 s l c h1 h2 h3
    have hs : s = [] := List.length_eq_zero.mp (Nat.le_zero.mp h3)
    subst hs
    match f1, f2, h1, h2 with
    | f1 + 1, f2 + 1, _, _ => rfl
  | succ n ih =>
    intro f1 f2 s l c h1 h2 h3
    cases s with
    | nil =>
      match f1, f2, h1, h2 with
      | f1 + 1, f2 + 1, _, _ => rfl
    | cons ch rest =>
      match f1, f2, h1, h2 with
      | f1 + 1, f2 + 1, h1, h2 =>
        simp only [List.length_cons] at h1 h2 h3
        have hr1 : rest.length < f1 := by omega
        have hr2 : rest.length < f2 := by omega
        have hr3 : rest.length ≤ n := by omega
        have htl : rest.tail.length ≤ rest.length := by
          cases rest <;> simp
        simp only [lexGo]
        by_cases hws : ch = ' ' ∨ ch = '\t' ∨ ch = '\r'
        · simp only [if_pos hws]
          exact ih f1 f2 rest l (c + 1) hr1 hr2 hr3
        simp only [if_neg hws]
        by_cases hnl : ch = '\n'
        · simp only [if_pos hnl]
          exact ih f1 f2 rest (l + 1) 1 hr1 hr2 hr3
        simp only [if_neg hnl]
        by_cases hcm : ch = ':' ∧ rest.head? = some ':'
        · simp only [if_pos hcm]
          have hsl := skipLine_fst_le rest.tail (c + 2)
          exact ih f1 f2 (skipLine rest.tail (c + 2)).1 l (skipLine rest.tail (c + 2)).2
            (by omega) (by omega) (by omega)
        simp only [if_neg hcm]
        by_cases hbc : ch = '<' ∧ rest.head? = some '#'
        · simp only [if_pos hbc]
          cases hsb : skipBlock rest.tail l (c + 2) with
          | error e => rfl
          | ok t =>
            obtain ⟨r2, l2, c2⟩ := t
            have hb := skipBlock_le rest.tail l (c + 2) r2 l2 c2 hsb
            exact ih f1 f2 r2 l2 c2 (by omega) (by omega) (by omega)
        simp only [if_neg hbc]
        by_cases hdg : ch.isDigit
        · simp only [if_pos hdg]
          have hlen := readNumber_rest_le (ch :: rest) l c
          simp only [List.length_cons] at hlen
          have hd1 : 1 ≤ (readDigits (ch :: rest)).1.length := by
            simp [readDigits, hdg]
          rw [ih f1 f2 (readNumber (ch :: rest) l c).2.1 l
            (readNumber (ch :: rest) l c).2.2 (by omega) (by omega) (by omega)]
        simp only [if_neg hdg]
        by_cases hlw : ch.isLower
        · simp only [if_pos hlw]
          cases hnc : readNameChars rest with
          | error e => rfl
          | ok t =>
            obtain ⟨nm, r2⟩ := t
            have hb := readNameChars_le rest nm r2 hnc
            show (lexGo f1 r2 l (c + 1 + nm.length)).map _ =
              (lexGo f2 r2 l (c + 1 + nm.length)).map _
            rw [ih f1 f2 r2 l (c + 1 + nm.length) (by omega) (by omega) (by omega)]
        simp only [if_neg hlw]
        by_cases hb1 : ch = '['
        · simp only [if_pos hb1]
          rw [ih f1 f2 rest l (c + 1) hr1 hr2 hr3]
        simp only [if_neg hb1]
        by_cases hb2 : ch = ']'
        · simp only [if_pos hb2]
          rw [ih f1 f2 rest l (c + 1) hr1 hr2 hr3]
        simp only [if_neg hb2]
        by_cases hb3 : ch = '{'
        · simp only [if_pos hb3]
          rw [ih f1 f2 rest l (c + 1) hr1 hr2 hr3]
        simp only [if_neg hb3]
        by_cases hb4 : ch = '}'
        · simp only [if_pos hb4]
          rw [ih f1 f2 rest l (c + 1) hr1 hr2 hr3]
        simp only [if_neg hb4]
        by_cases hb5 : ch = '('
        · simp only [if_pos hb5]
          rw [ih f1 f2 rest l (c + 1) hr1 hr2 hr3]
        simp only [if_neg hb5]
        by_cases hb6 : ch = ')'
        · simp only [if_pos hb6]
          rw [ih f1 f2 rest l (c + 1) hr1 hr2 hr3]
        simp only [if_neg hb6]
        by_cases hb7 : ch = ';'
        · simp only [if_pos hb7]
          rw [ih f1 f2 rest l (c + 1) hr1 hr2 hr3]
        simp only [if_neg hb7]
        by_cases hb8 : ch = '='
        · simp only [if_pos hb8]
          rw [ih f1 f2 rest l (c + 1) hr1 hr2 hr3]
        simp only [if_neg hb8]
        by_cases hasg : ch = '<' ∧ rest.head? = some '-'
        · simp only [if_pos hasg]
          rw [ih f1 f2 rest.tail l (c + 2) (by omega) (by omega) (by omega)]
        simp only [if_neg hasg]
        by_cases hdot : ch = '.'
        · simp only [if_pos hdot]
          rw [ih f1 f2 rest l (c + 1) hr1 hr2 hr3]
        simp only [if_neg hdot]
        by_cases hpls : ch = '+'
        · simp only [if_pos hpls]
          rw [ih f1 f2 rest l (c + 1) hr1 hr2 hr3]
        simp only [if_neg hpls]
        by_cases hmns : ch = '-'
        · simp only [if_pos hmns]
          rw [ih f1 f2 rest l (c + 1) hr1 hr2 hr3]
        simp only [if_neg hmns]

/-- Any sufficient fuel computes `lexLoop`. -/
theorem lexGo_eq_lexLoop (fuel : Nat) (s : List Char) (l c : Nat) (h : s.length < fuel) :
    lexGo fuel s l c = lexLoop s l c :=
  lexGo_eq s.length fuel (s.length + 1) s l c h (Nat.lt_succ_self _) le_rfl

/-! ## Helper lemmas about numeric literals -/
theorem readDigits_append (ds rest : List Char) (hds : ∀ ch ∈ ds, ch.isDigit)
    (hr : ∀ ch, rest.head? = some ch → ch.isDigit = false) :
    readDigits (ds ++ rest) = (ds, rest) := by
  induction ds with
  | nil =>
    cases rest with
    | nil => rfl
    | cons ch r =>
      have := hr ch rfl
      simp [readDigits, this]
  | cons d ds ih =>
    have hd : d.isDigit := hds d (by simp)
    have hds' : ∀ ch ∈ ds, ch.isDigit := fun ch hch => hds ch (by simp [hch])
    simp [readDigits, hd, ih hds']

theorem litToRat_split (ds fs : List Char) (hds : ∀ ch ∈ ds, ch.isDigit) :
    litToRat (ds ++ '.' :: fs) =
      (digitsToNat ds : ℚ) + (digitsToNat fs : ℚ) / (10 : ℚ) ^ fs.length := by
  unfold litToRat
  rw [readDigits_append ds ('.' :: fs) hds
    (by intro ch h; simp at h; rw [← h]; rfl)]
  rfl

theorem litToRat_digits (ds : List Char) (hds : ∀ ch ∈ ds, ch.isDigit) :
    litToRat ds = (digitsToNat ds : ℚ) := by
  unfold litToRat
  have h : readDigits ds = (ds, []) := by
    have := readDigits_append ds [] hds (by intro ch h; simp at h)
    simpa using this
  rw [h]

theorem litToRat_ten : litToRat "10.0".toList = 10 := by
  have h : "10.0".toList = ['1', '0'] ++ '.' :: ['0'] := rfl
  rw [h, litToRat_split _ _ (by decide)]
  rw [show digitsToNat ['1', '0'] = 10 from by decide,
    show digitsToNat ['0'] = 0 from by decide]
  norm_num

theorem litToRat_five : litToRat "5.0".toList = 5 := by
  have h : "5.0".toList = ['5'] ++ '.' :: ['0'] := rfl
  rw [h, litToRat_split _ _ (by decide)]
  rw [show digitsToNat ['5'] = 5 from by decide,
    show digitsToNat ['0'] = 0 from by decide]
  norm_num

theorem litToRat_three : litToRat "3.0".toList = 3 := by
  have h : "3.0".toList = ['3'] ++ '.' :: ['0'] := rfl
  rw [h, litToRat_split _ _ (by decide)]
  rw [show digitsToNat ['3'] = 3 from by decide,
    show digitsToNat ['0'] = 0 from by decide]
  norm_num

theorem litToRat_one : litToRat "1.0".toList = 1 := by
  have h : "1.0".toList = ['1'] ++ '.' :: ['0'] := rfl
  rw [h, litToRat_split _ _ (by decide)]
  rw [show digitsToNat ['1'] = 1 from by decide,
    show digitsToNat ['0'] = 0 from by decide]
  norm_num

theorem litToRat_fortytwo : litToRat "42.0".toList = 42 := by
  have h : "42.0".toList = ['4', '2'] ++ '.' :: ['0'] := rfl
  rw [h, litToRat_split _ _ (by decide)]
  rw [show digitsToNat ['4', '2'] = 42 from by decide,
    show digitsToNat ['0'] = 0 from by decide]
  norm_num

/-! ## Helper lemmas about the environment fold -/
@[simp] theorem except_ok_bind {ε α β : Type} (a : α) (f : α → Except ε β) :
    (Except.ok a >>= f) = f a := rfl

@[simp] theorem except_error_bind {ε α β : Type} (e : ε) (f : α → Except ε β) :
    ((Except.error e : Except ε α) >>= f) = Except.error e := rfl

@[simp] theorem except_bind_ok {ε α β : Type} (a : α) (f : α → Except ε β) :
    Except.bind (Except.ok a) f = f a := rfl

@[simp] theorem except_bind_error {ε α β : Type} (e : ε) (f : α → Except ε β) :
    Except.bind (Except.error e : Except ε α) f = Except.error e := rfl

theorem pyLookup_upsert_self {α : Type} (env : List (String × α)) (k : String) (v : α) :
    pyLookup (pyUpsert env k v) k = some v := by
  induction env with
  | nil => simp [pyUpsert, pyLookup]
  | cons p t ih =>
    obtain ⟨k', v'⟩ := p
    by_cases h : k' = k <;> simp [pyUpsert, pyLookup, h, ih]

theorem pyLookup_upsert_ne {α : Type} (env : List (String × α)) (k k' : String) (v : α)
    (h : k ≠ k') : pyLookup (pyUpsert env k v) k' = pyLookup env k' := by
  induction env with
  | nil => simp [pyUpsert, pyLookup, h]
  | cons p t ih =>
    obtain ⟨k1, v1⟩ := p
    by_cases h1 : k1 = k <;> by_cases h2 : k1 = k' <;>
      simp_all [pyUpsert, pyLookup]

theorem evaluateAllGo_append (xs ys : List Node) :
    ∀ res env : List (String × Value),
    evaluateAllGo (xs ++ ys) res env =
      (evaluateAllGo xs res env).bind (fun p => evaluateAllGo ys p.1 p.2) := by
  induction xs with
  | nil => intro res env; simp [evaluateAllGo, Except.bind]
  | cons n ns ih =>
    intro res env
    cases n with
    | constDecl nm vn =>
      simp only [List.cons_append, evaluateAllGo]
      cases hv : evalNode env vn <;> simp [Except.bind, hv, ih]
    | number v =>
      simp only [List.cons_append, evaluateAllGo]
      cases hv : evalNode env (.number v) <;> simp [Except.bind, hv, ih]
    | name s =>
      simp only [List.cons_append, evaluateAllGo]
      cases hv : evalNode env (.name s) <;> simp [Except.bind, hv, ih]
    | array es =>
      simp only [List.cons_append, evaluateAllGo]
      cases hv : evalNode env (.array es) <;> simp [Except.bind, hv, ih]
    | dict ps =>
      simp only [List.cons_append, evaluateAllGo]
      cases hv : evalNode env (.dict ps) <;> simp [Except.bind, hv, ih]
    | constExpr ts =>
      simp only [List.cons_append, evaluateAllGo]
      cases hv : evalNode env (.constExpr ts) <;> simp [Except.bind, hv, ih]

theorem evaluateAllGo_env_no_decl (ys : List Node) (nm : String) :
    ∀ res env res2 env2, declares ys nm = false →
      evaluateAllGo ys res env = .ok (res2, env2) →
      pyLookup env2 nm = pyLookup env nm := by
  induction ys with
  | nil =>
    intro res env res2 env2 _ h2
    simp [evaluateAllGo] at h2
    rw [h2.2]
  | cons n ns ih =>
    intro res env res2 env2 hd h2
    cases n with
    | constDecl k vn =>
      have hk : ¬(k = nm) := by
        simp [declares] at hd
        intro hc; subst hc; simp at hd
      have hds : declares ns nm = false := by
        simp [declares] at hd ⊢
        intro x hx
        rcases hd with ⟨-, hd2⟩
        exact hd2 x hx
      simp only [evaluateAllGo] at h2
      cases hv : evalNode env vn with
      | error e => rw [hv] at h2; simp at h2
      | ok v =>
        rw [hv] at h2
        simp only [except_ok_bind] at h2
        rw [ih _ _ _ _ hds h2]
        exact pyLookup_upsert_ne env k nm v hk
    | number v =>
      have hds : declares ns nm = false := by simp_all [declares]
      simp only [evaluateAllGo] at h2
      cases hv : evalNode env (.number v) with
      | error e => rw [hv] at h2; simp at h2
      | ok w => rw [hv] at h2; simp only [except_ok_bind] at h2; exact ih _ _ _ _ hds h2
    | name s =>
      have hds : declares ns nm = false := by simp_all [declares]
      simp only [evaluateAllGo] at h2
      cases hv : evalNode env (.name s) with
      | error e => rw [hv] at h2; simp at h2
      | ok w => rw [hv] at h2; simp only [except_ok_bind] at h2; exact ih _ _ _ _ hds h2
    | array es =>
      have hds : declares ns nm = false := by simp_all [declares]
      simp only [evaluateAllGo] at h2
      cases hv : evalNode env (.array es) with
      | error e => rw [hv] at h2; simp at h2
      | ok w => rw [hv] at h2; simp only [except_ok_bind] at h2; exact ih _ _ _ _ hds h2
    | dict ps =>
      have hds : declares ns nm = false := by simp_all [declares]
      simp only [evaluateAllGo] at h2
      cases hv : evalNode env (.dict ps) with
      | error e => rw [hv] at h2; simp at h2
      | ok w => rw [hv] at h2; simp only [except_ok_bind] at h2; exact ih _ _ _ _ hds h2
    | constExpr ts =>
      have hds : declares ns nm = false := by simp_all [declares]
      simp only [evaluateAllGo] at h2
      cases hv : evalNode env (.constExpr ts) with
      | error e => rw [hv] at h2; simp at h2
      | ok w => rw [hv] at h2; simp only [except_ok_bind] at h2; exact ih _ _ _ _ hds h2

/-! ## Helper lemmas about character classes and name/number scanning -/
theorem char_pred_ne {p : Char → Bool} {d : Char} (hd : p d = true) (x : Char)
    (hx : p x = false) : d ≠ x := fun hc => by
  subst hc
  rw [hd] at hx
  exact Bool.noConfusion hx

theorem lower_not_digit (ch : Char) (h : ch.isLower = true) : ch.isDigit = false := by
  cases hb : ch.isDigit with
  | false => rfl
  | true =>
    exfalso
    simp [Char.isLower] at h
    simp [Char.isDigit] at hb
    have h1 : 97 ≤ ch.val.toNat := h.1
    have h2 : ch.val.toNat ≤ 57 := hb.2
    omega

theorem upper_not_lower (ch : Char) (h : ch.isUpper = true) : ch.isLower = false := by
  cases hb : ch.isLower with
  | false => rfl
  | true =>
    exfalso
    simp [Char.isUpper] at h
    simp [Char.isLower] at hb
    have h1 : ch.val.toNat ≤ 90 := h.2
    have h2 : 97 ≤ ch.val.toNat := hb.1
    omega

theorem upper_not_digit (ch : Char) (h : ch.isUpper = true) : ch.isDigit = false := by
  cases hb : ch.isDigit with
  | false => rfl
  | true =>
    exfalso
    simp [Char.isUpper] at h
    simp [Char.isDigit] at hb
    have h1 : 65 ≤ ch.val.toNat := h.1
    have h2 : ch.val.toNat ≤ 57 := hb.2
    omega

theorem upper_alnum (ch : Char) (h : ch.isUpper = true) : ch.isAlphanum = true := by
  simp [Char.isAlphanum, Char.isAlpha, h]

/-- Scanning identifier-continuation characters stops with the InvalidCharacter
payload at the first uppercase letter, reporting how many characters preceded
it. -/
theorem readNameChars_upper (mid : List Char) (u : Char) (tail : List Char)
    (hmid : ∀ x ∈ mid, (x.isAlphanum || x = '_') = true ∧ x.isUpper = false)
    (hu : u.isUpper = true) :
    readNameChars (mid ++ u :: tail) = .error (u, mid.length) := by
  induction mid with
  | nil =>
    simp only [List.nil_append, readNameChars]
    rw [if_pos (by simp [upper_alnum u hu]), if_pos hu]
    rfl
  | cons x mid' ih =>
    have hx := hmid x (by simp)
    have hmid' : ∀ y ∈ mid', (y.isAlphanum || y = '_') = true ∧ y.isUpper = false :=
      fun y hy => hmid y (by simp [hy])
    simp only [List.cons_append, readNameChars, List.append_eq]
    rw [if_pos hx.1, if_neg (by rw [hx.2]; exact Bool.noConfusion), ih hmid']
    simp

/-- Running the scanner on a valid numeric literal followed by a semicolon
produces the NUMBER token (valued by the literal), the semicolon, and EOF. -/
theorem lexGo_lit_semi : ∀ (N : List Char), ValidNumLit N → ∀ (l c fuel : Nat),
    N.length + 1 < fuel →
    lexGo fuel (N ++ [';']) l c = .ok
      [⟨.NUMBER, .num (litToRat N), l, c⟩,
       ⟨.SEMICOLON, .str ";", l, c + N.length⟩,
       ⟨.EOF, .none, l, c + N.length + 1⟩] := by
  intro N h l c fuel hf
  rcases h with ⟨ds, rfl, hne, hdig⟩ | ⟨ds, fs, rfl, hne, hdig, hfs⟩
  · cases N with
    | nil => exact absurd rfl hne
    | cons d ds' =>
      cases fuel with
      | zero => omega
      | succ f =>
        have hd : d.isDigit := hdig d (by simp)
        have hA : ¬(d = ' ' ∨ d = '\t' ∨ d = '\r') := by
          rintro (hc | hc | hc) <;> (subst hc; exact absurd hd (by decide))
        have hB : d ≠ '\n' := char_pred_ne hd '\n' (by decide)
        have hrd : readDigits (d :: (ds' ++ [';'])) = (d :: ds', [';']) := by
          have := readDigits_append (d :: ds') [';'] hdig
            (by intro x hx; simp at hx; subst hx; rfl)
          simpa using this
        have hrn : readNumber (d :: (ds' ++ [';'])) l c =
            (⟨.NUMBER, .num (litToRat (d :: ds')), l, c⟩, [';'], c + (d :: ds').length) := by
          simp [readNumber, hrd]
        simp only [List.cons_append, lexGo]
        rw [if_neg hA, if_neg (hB ·), if_neg (fun hc => (char_pred_ne hd ':' (by decide)) hc.1),
          if_neg (fun hc => (char_pred_ne hd '<' (by decide)) hc.1), if_pos hd]
        simp only [List.append_eq]
        simp only [hrn]
        rw [lexGo_eq 1 f 2 [';'] l (c + (d :: ds').length)
          (by simp at hf ⊢; omega) (by simp) (by simp)]
        rfl
  · cases ds with
    | nil => exact absurd rfl hne
    | cons d ds' =>
      rw [show (d :: ds' ++ '.' :: fs) ++ [';'] = d :: (ds' ++ '.' :: (fs ++ [';']))
        from by simp]
      cases fuel with
      | zero => omega
      | succ f =>
        have hd : d.isDigit := hdig d (by simp)
        have hA : ¬(d = ' ' ∨ d = '\t' ∨ d = '\r') := by
          rintro (hc | hc | hc) <;> (subst hc; exact absurd hd (by decide))
        have hB : d ≠ '\n' := char_pred_ne hd '\n' (by decide)
        have hrd : readDigits (d :: (ds' ++ '.' :: (fs ++ [';']))) =
            (d :: ds', '.' :: (fs ++ [';'])) := by
          have := readDigits_append (d :: ds') ('.' :: (fs ++ [';'])) hdig
            (by intro x hx; simp at hx; subst hx; rfl)
          simpa using this
        have hq : readDigits (fs ++ [';']) = (fs, [';']) :=
          readDigits_append fs [';'] hfs (by intro x hx; simp at hx; subst hx; rfl)
        have hrn : readNumber (d :: (ds' ++ '.' :: (fs ++ [';']))) l c =
            (⟨.NUMBER, .num (litToRat (d :: (ds' ++ '.' :: fs))), l, c⟩, [';'],
              c + (d :: ds').length + 1 + fs.length) := by
          simp [readNumber, hrd, hq]
        have hfl : 1 < f := by
          simp [List.length_append] at hf
          omega
        have hcol : c + (d :: ds' ++ '.' :: fs).length =
            c + (d :: ds').length + 1 + fs.length := by
          simp only [List.length_append, List.length_cons]
          omega
        simp only [lexGo]
        rw [if_neg hA, if_neg (hB ·), if_neg (fun hc => (char_pred_ne hd ':' (by decide)) hc.1),
          if_neg (fun hc => (char_pred_ne hd '<' (by decide)) hc.1), if_pos hd]
        simp only [List.append_eq, hrn]
        rw [lexGo_eq 1 f 2 [';'] l (c + (d :: ds').length + 1 + fs.length)
          (by simpa using hfl) (by simp) (by simp), hcol]
        rfl

/-- Lexing the whole program `x <- N;` for a valid numeric literal `N`. -/
theorem tokenize_decl_lit (N : List Char) (h : ValidNumLit N) :
    tokenize ("x <- ".toList ++ (N ++ [';'])) = .ok
      [⟨.NAME, .str "x", 1, 1⟩, ⟨.ASSIGN, .str "<-", 1, 3⟩,
       ⟨.NUMBER, .num (litToRat N), 1, 6⟩,
       ⟨.SEMICOLON, .str ";", 1, 6 + N.length⟩,
       ⟨.EOF, .none, 1, 6 + N.length + 1⟩] := by
  have hstep : tokenize ("x <- ".toList ++ (N ++ [';'])) =
      ((lexGo ((N ++ [';']).length + 2) (N ++ [';']) 1 6).map
          (fun ts => (⟨.ASSIGN, .str "<-", 1, 3⟩ : Token) :: ts)).map
        (fun ts => (⟨.NAME, .str "x", 1, 1⟩ : Token) :: ts) := rfl
  rw [hstep, lexGo_lit_semi N h 1 6 ((N ++ [';']).length + 2)
    (by simp only [List.length_append, List.length_cons, List.length_nil]; omega)]
  rfl

theorem skipLine_fst_irrel : ∀ (s : List Char) (c c' : Nat),
    (skipLine s c).1 = (skipLine s c').1 := by
  intro s
  induction s with
  | nil => intro c c'; rfl
  | cons ch r ih =>
    intro c c'
    by_cases h : ch = '\n' <;> simp [skipLine, h]
    exact ih (c + 1) (c' + 1)

theorem skipBlock_obs : ∀ (r : List Char) (l c l' c' : Nat),
    obsSB (skipBlock r l c) = obsSB (skipBlock r l' c') := by
  intro r
  induction r with
  | nil => intro l c l' c'; rfl
  | cons ch rest ih =>
    intro l c l' c'
    by_cases h1 : ch = '#' ∧ rest.head? = some '>'
    · simp [skipBlock, h1, obsSB]
    · by_cases hn : ch = '\n' <;> rw [skipBlock, skipBlock, if_neg h1, if_neg h1] <;>
        simp only [hn, if_true, if_false, reduceIte] <;> exact ih _ _ _ _

theorem readNumber_obs (s : List Char) (l c l' c' : Nat) :
    (readNumber s l c).1.type = (readNumber s l' c').1.type ∧
    (readNumber s l c).1.value = (readNumber s l' c').1.value ∧
    (readNumber s l c).2.1 = (readNumber s l' c').2.1 := by
  unfold readNumber
  by_cases h : (readDigits s).2.head? = some '.' <;> simp [h]

theorem obsLex_map_cons {x y : Except LexErr (List Token)} {t1 t2 : Token}
    (ht : stripTok t1 = stripTok t2) (h : obsLex x = obsLex y) :
    obsLex (x.map (fun ts => t1 :: ts)) = obsLex (y.map (fun ts => t2 :: ts)) := by
  cases x <;> cases y <;> simp [obsLex, Except.map] at h ⊢
  · exact h
  · exact ⟨ht, h⟩

/-- The scanner's outcome, up to positions, does not depend on the starting
line/column (or on the fuel, provided it suffices): control flow never reads
the position counters. -/
theorem lexGo_obs : ∀ (n f1 f2 : Nat) (s : List Char) (l1 c1 l2 c2 : Nat),
    s.length < f1 → s.length < f2 → s.length ≤ n →
    obsLex (lexGo f1 s l1 c1) = obsLex (lexGo f2 s l2 c2) := by
  intro n
  induction n with
  | zero =>
    intro f1 f2 s l1 c1 l2 c2 h1 h2 h3
    have hs : s = [] := List.length_eq_zero.mp (Nat.le_zero.mp h3)
    subst hs
    match f1, f2, h1, h2 with
    | f1 + 1, f2 + 1, _, _ => rfl
  | succ n ih =>
    intro f1 f2 s l1 c1 l2 c2 h1 h2 h3
    cases s with
    | nil =>
      match f1, f2, h1, h2 with
      | f1 + 1, f2 + 1, _, _ => rfl
    | cons ch rest =>
      match f1, f2, h1, h2 with
      | f1 + 1, f2 + 1, h1, h2 =>
        simp only [List.length_cons] at h1 h2 h3
        have hr1 : rest.length < f1 := by omega
        have hr2 : rest.length < f2 := by omega
        have hr3 : rest.length ≤ n := by omega
        have htl : rest.tail.length ≤ rest.length := by
          cases rest <;> simp
        simp only [lexGo]
        by_cases hws : ch = ' ' ∨ ch = '\t' ∨ ch = '\r'
        · simp only [if_pos hws]
          exact ih f1 f2 rest l1 (c1 + 1) l2 (c2 + 1) hr1 hr2 hr3
        simp only [if_neg hws]
        by_cases hnl : ch = '\n'
        · simp only [if_pos hnl]
          exact ih f1 f2 rest (l1 + 1) 1 (l2 + 1) 1 hr1 hr2 hr3
        simp only [if_neg hnl]
        by_cases hcm : ch = ':' ∧ rest.head? = some ':'
        · simp only [if_pos hcm]
          have hsl := skipLine_fst_le rest.tail (c2 + 2)
          rw [skipLine_fst_irrel rest.tail (c1 + 2) (c2 + 2)]
          exact ih f1 f2 (skipLine rest.tail (c2 + 2)).1 l1 (skipLine rest.tail (c1 + 2)).2
            l2 (skipLine rest.tail (c2 + 2)).2 (by omega) (by omega) (by omega)
        simp only [if_neg hcm]
        by_cases hbc : ch = '<' ∧ rest.head? = some '#'
        · simp only [if_pos hbc]
          have hobs := skipBlock_obs rest.tail l1 (c1 + 2) l2 (c2 + 2)
          cases hsb : skipBlock rest.tail l1 (c1 + 2) with
          | error e =>
            cases hsb2 : skipBlock rest.tail l2 (c2 + 2) with
            | error e2 =>
              rw [hsb, hsb2] at hobs
              simp [obsSB] at hobs
              simp [obsLex, hobs]
            | ok t2 =>
              rw [hsb, hsb2] at hobs
              obtain ⟨r2, l3, c3⟩ := t2
              simp [obsSB] at hobs
          | ok t =>
            obtain ⟨r2, l3, c3⟩ := t
            cases hsb2 : skipBlock rest.tail l2 (c2 + 2) with
            | error e2 =>
              rw [hsb, hsb2] at hobs
              simp [obsSB] at hobs
            | ok t2 =>
              obtain ⟨r4, l4, c4⟩ := t2
              rw [hsb, hsb2] at hobs
              simp only [obsSB] at hobs
              injection hobs with hobs
              subst hobs
              have hb := skipBlock_le rest.tail l2 (c2 + 2) r2 l4 c4 hsb2
              exact ih f1 f2 r2 l3 c3 l4 c4 (by omega) (by omega) (by omega)
        simp only [if_neg hbc]
        by_cases hdg : ch.isDigit
        · simp only [if_pos hdg]
          have hlen := readNumber_rest_le (ch :: rest) l2 c2
          simp only [List.length_cons] at hlen
          have hd1 : 1 ≤ (readDigits (ch :: rest)).1.length := by
            simp [readDigits, hdg]
          have hro := readNumber_obs (ch :: rest) l1 c1 l2 c2
          have hts : stripTok (readNumber (ch :: rest) l1 c1).1 =
              stripTok (readNumber (ch :: rest) l2 c2).1 := by
            simp [stripTok, hro.1, hro.2.1]
          rw [hro.2.2]
          exact obsLex_map_cons hts
            (ih f1 f2 (readNumber (ch :: rest) l2 c2).2.1 l1
              (readNumber (ch :: rest) l1 c1).2.2 l2 (readNumber (ch :: rest) l2 c2).2.2
              (by omega) (by omega) (by omega))
        simp only [if_neg hdg]
        by_cases hlw : ch.isLower
        · simp only [if_pos hlw]
          cases hnc : readNameChars rest with
          | error e =>
            obtain ⟨u, k⟩ := e
            simp [obsLex]
          | ok t =>
            obtain ⟨nm, r2⟩ := t
            have hb := readNameChars_le rest nm r2 hnc
            exact obsLex_map_cons rfl
              (ih f1 f2 r2 l1 (c1 + 1 + nm.length) l2 (c2 + 1 + nm.length)
                (by omega) (by omega) (by omega))
        simp only [if_neg hlw]
        by_cases hb1 : ch = '['
        · simp only [if_pos hb1]
          exact obsLex_map_cons rfl (ih f1 f2 rest l1 (c1 + 1) l2 (c2 + 1) hr1 hr2 hr3)
        simp only [if_neg hb1]
        by_cases hb2 : ch = ']'
        · simp only [if_pos hb2]
          exact obsLex_map_cons rfl (ih f1 f2 rest l1 (c1 + 1) l2 (c2 + 1) hr1 hr2 hr3)
        simp only [if_neg hb2]
        by_cases hb3 : ch = '{'
        · simp only [if_pos hb3]
          exact obsLex_map_cons rfl (ih f1 f2 rest l1 (c1 + 1) l2 (c2 + 1) hr1 hr2 hr3)
        simp only [if_neg hb3]
        by_cases hb4 : ch = '}'
        · simp only [if_pos hb4]
          exact obsLex_map_cons rfl (ih f1 f2 rest l1 (c1 + 1) l2 (c2 + 1) hr1 hr2 hr3)
        simp only [if_neg hb4]
        by_cases hb5 : ch = '('
        · simp only [if_pos hb5]
          exact obsLex_map_cons rfl (ih f1 f2 rest l1 (c1 + 1) l2 (c2 + 1) hr1 hr2 hr3)
        simp only [if_neg hb5]
        by_cases hb6 : ch = ')'
        · simp only [if_pos hb6]
          exact obsLex_map_cons rfl (ih f1 f2 rest l1 (c1 + 1) l2 (c2 + 1) hr1 hr2 hr3)
        simp only [if_neg hb6]
        by_cases hb7 : ch = ';'
        · simp only [if_pos hb7]
          exact obsLex_map_cons rfl (ih f1 f2 rest l1 (c1 + 1) l2 (c2 + 1) hr1 hr2 hr3)
        simp only [if_neg hb7]
        by_cases hb8 : ch = '='
        · simp only [if_pos hb8]
          exact obsLex_map_cons rfl (ih f1 f2 rest l1 (c1 + 1) l2 (c2 + 1) hr1 hr2 hr3)
        simp only [if_neg hb8]
        by_cases hasg : ch = '<' ∧ rest.head? = some '-'
        · simp only [if_pos hasg]
          exact obsLex_map_cons rfl
            (ih f1 f2 rest.tail l1 (c1 + 2) l2 (c2 + 2) (by omega) (by omega) (by omega))
        simp only [if_neg hasg]
        by_cases hdot : ch = '.'
        · simp only [if_pos hdot]
          exact obsLex_map_cons rfl (ih f1 f2 rest l1 (c1 + 1) l2 (c2 + 1) hr1 hr2 hr3)
        simp only [if_neg hdot]
        by_cases hpls : ch = '+'
        · simp only [if_pos hpls]
          exact obsLex_map_cons rfl (ih f1 f2 rest l1 (c1 + 1) l2 (c2 + 1) hr1 hr2 hr3)
        simp only [if_neg hpls]
        by_cases hmns : ch = '-'
        · simp only [if_pos hmns]
          exact obsLex_map_cons rfl (ih f1 f2 rest l1 (c1 + 1) l2 (c2 + 1) hr1 hr2 hr3)
        simp only [if_neg hmns]
        rfl

/-- Scanning the same text from any two positions yields the same outcome up
to positions. -/
theorem lexLoop_obs (s : List Char) (l c l' c' : Nat) :
    obsLex (lexLoop s l c) = obsLex (lexLoop s l' c') :=
  lexGo_obs s.length (s.length + 1) (s.length + 1) s l c l' c'
    (Nat.lt_succ_self _) (Nat.lt_succ_self _) le_rfl

theorem skipLine_run : ∀ (body rest : List Char) (c : Nat),
    (∀ x ∈ body, x ≠ '\n') → (rest = [] ∨ rest.head? = some '\n') →
    skipLine (body ++ rest) c = (rest, c + body.length) := by
  intro body
  induction body with
  | nil =>
    intro rest c _ hr
    rcases hr with rfl | hr
    · simp [skipLine]
    · cases rest with
      | nil => simp [skipLine]
      | cons x r =>
        simp at hr
        subst hr
        simp [skipLine]
  | cons x body' ih =>
    intro rest c hb hr
    have hx : x ≠ '\n' := hb x (by simp)
    have hb' : ∀ y ∈ body', y ≠ '\n' := fun y hy => hb y (by simp [hy])
    have hstep : skipLine ((x :: body') ++ rest) c = skipLine (body' ++ rest) (c + 1) := by
      conv_lhs => rw [List.cons_append, skipLine]
      rw [if_neg hx]
    rw [hstep, ih rest (c + 1) hb' hr]
    have harith : c + 1 + body'.length = c + (x :: body').length := by simp; omega
    rw [harith]

theorem skipBlock_run : ∀ (body : List Char), noCloseMarker body = true →
    ∀ (rest : List Char) (l c : Nat), ∃ l2 c2,
      skipBlock (body ++ '#' :: '>' :: rest) l c = .ok (rest, l2, c2) := by
  intro body
  induction body with
  | nil =>
    intro _ rest l c
    exact ⟨l, c + 2, by simp [skipBlock]⟩
  | cons x body' ih =>
    intro hnc rest l c
    cases body' with
    | nil =>
      have hC : ¬(x = '#' ∧ (([] : List Char) ++ '#' :: '>' :: rest).head? = some '>') := by
        rintro ⟨-, hc⟩
        simp at hc
      have hstep : skipBlock ((x :: []) ++ '#' :: '>' :: rest) l c =
          (if x = '\n' then skipBlock (([] : List Char) ++ '#' :: '>' :: rest) (l + 1) 1
           else skipBlock (([] : List Char) ++ '#' :: '>' :: rest) l (c + 1)) := by
        conv_lhs => rw [List.cons_append, skipBlock]
        rw [if_neg (by simpa using hC)]
      rw [hstep]
      by_cases hx : x = '\n'
      · simp only [hx, if_true, reduceIte]
        exact ih rfl rest (l + 1) 1
      · simp only [hx, if_false, reduceIte]
        exact ih rfl rest l (c + 1)
    | cons y r =>
      have hsplit : ¬(x = '#' ∧ y = '>') ∧ noCloseMarker (y :: r) = true := by
        by_cases hxy : x = '#' ∧ y = '>'
        · simp [noCloseMarker, hxy] at hnc
        · simp [noCloseMarker, hxy] at hnc
          exact ⟨hxy, hnc⟩
      have hC : ¬(x = '#' ∧ ((y :: r) ++ '#' :: '>' :: rest).head? = some '>') := by
        rintro ⟨hx, hc⟩
        simp at hc
        exact hsplit.1 ⟨hx, hc⟩
      have hstep : skipBlock ((x :: y :: r) ++ '#' :: '>' :: rest) l c =
          (if x = '\n' then skipBlock ((y :: r) ++ '#' :: '>' :: rest) (l + 1) 1
           else skipBlock ((y :: r) ++ '#' :: '>' :: rest) l (c + 1)) := by
        conv_lhs => rw [List.cons_append, skipBlock]
        rw [if_neg (by simpa using hC)]
      rw [hstep]
      by_cases hx : x = '\n'
      · simp only [hx, if_true, reduceIte]
        exact ih hsplit.2 rest (l + 1) 1
      · simp only [hx, if_false, reduceIte]
        exact ih hsplit.2 rest l (c + 1)

/-- Inserting a single-line comment at a scanner-loop state whose following
text starts with a newline (or is empty) does not change the scan, up to
positions. -/
theorem lexLoop_line_comment (body rest : List Char) (l c l' c' : Nat)
    (hb : ∀ x ∈ body, x ≠ '\n') (hr : rest = [] ∨ rest.head? = some '\n') :
    obsLex (lexLoop (':' :: ':' :: (body ++ rest)) l c) = obsLex (lexLoop rest l' c') := by
  show obsLex (lexGo ((':' :: ':' :: (body ++ rest)).length + 1)
    (':' :: ':' :: (body ++ rest)) l c) = _
  simp only [lexGo]
  rw [if_neg (by decide), if_neg (by decide), if_pos (by simp)]
  simp only [List.tail_cons]
  rw [skipLine_run body rest (c + 2) hb hr]
  exact lexGo_obs rest.length ((':' :: ':' :: (body ++ rest)).length) (rest.length + 1)
    rest l (c + 2 + body.length) l' c'
    (by simp only [List.length_cons, List.length_append]; omega)
    (Nat.lt_succ_self _) le_rfl

/-- Inserting a block comment (whose text contains no `#>`) at a
scanner-loop state does not change the scan, up to positions. -/
theorem lexLoop_block_comment (body rest : List Char) (l c l' c' : Nat)
    (hb : noCloseMarker body = true) :
    obsLex (lexLoop ('<' :: '#' :: (body ++ '#' :: '>' :: rest)) l c) =
      obsLex (lexLoop rest l' c') := by
  obtain ⟨l2, c2, hsb⟩ := skipBlock_run body hb rest l (c + 2)
  show obsLex (lexGo (('<' :: '#' :: (body ++ '#' :: '>' :: rest)).length + 1)
    ('<' :: '#' :: (body ++ '#' :: '>' :: rest)) l c) = _
  simp only [lexGo]
  rw [if_neg (by decide), if_neg (by decide), if_neg (by simp), if_pos (by simp)]
  simp only [List.tail_cons]
  rw [hsb]
  exact lexGo_obs rest.length (('<' :: '#' :: (body ++ '#' :: '>' :: rest)).length)
    (rest.length + 1) rest l2 c2 l' c'
    (by simp only [List.length_cons, List.length_append]; omega)
    (Nat.lt_succ_self _) le_rfl

theorem map_strip_cases {ts ts' : List Token}
    (h : ts.map stripTok = ts'.map stripTok) :
    (ts = [] ∧ ts' = []) ∨
    ∃ t r t' r', ts = t :: r ∧ ts' = t' :: r' ∧ stripTok t = stripTok t' ∧
      r.map stripTok = r'.map stripTok := by
  cases ts with
  | nil =>
    cases ts' with
    | nil => exact Or.inl ⟨rfl, rfl⟩
    | cons t' r' => simp at h
  | cons t r =>
    cases ts' with
    | nil => simp at h
    | cons t' r' =>
      simp at h
      exact Or.inr ⟨t, r, t', r', rfl, rfl, h.1, h.2⟩

theorem stripTok_fields {t t' : Token} (h : stripTok t = stripTok t') :
    t.type = t'.type ∧ t.value = t'.value := by
  obtain ⟨a, b, c, d⟩ := t
  obtain ⟨a', b', c', d'⟩ := t'
  simp [stripTok] at h
  exact h

theorem stripNodeList_append (xs ys : List Node) :
    stripNodeList (xs ++ ys) = stripNodeList xs ++ stripNodeList ys := by
  induction xs with
  | nil => rfl
  | cons n ns ih => simp [stripNodeList, ih]

theorem stripNodePairs_upsert (acc : List (String × Node)) (k : String) (v : Node) :
    stripNodePairs (pyUpsert acc k v) = pyUpsert (stripNodePairs acc) k (stripNode v) := by
  induction acc with
  | nil => rfl
  | cons p t ih =>
    obtain ⟨k', v'⟩ := p
    by_cases h : k' = k <;> simp [pyUpsert, stripNodePairs, h, ih]

theorem eat_obs (w : TokenType) {ts ts' : List Token}
    (h : ts.map stripTok = ts'.map stripTok) :
    obsEat (eat w ts) = obsEat (eat w ts') := by
  rcases map_strip_cases h with ⟨rfl, rfl⟩ | ⟨t, r, t', r', rfl, rfl, ht, hr⟩
  · rfl
  · obtain ⟨hty, hv⟩ := stripTok_fields ht
    by_cases hw : t.type = w
    · rw [eat, eat, if_pos hw, if_pos (hty ▸ hw)]
      simp [obsEat, ht, hr]
    · rw [eat, eat, if_neg hw, if_neg (hty ▸ hw)]
      rfl

/-! ## Claim theorems -/
/-- C10: translating the empty input succeeds with an empty result: the
lexer produces exactly the EOF end-marker at line 1, column 1, the parser
produces an empty statement list, and the evaluator produces an empty
output mapping; no stage raises an error. -/
theorem empty_input_translates_empty :
    tokenize "".toList = .ok [⟨.EOF, .none, 1, 1⟩] ∧
    parseTokens [⟨.EOF, .none, 1, 1⟩] = .ok [] ∧
    evaluateAll [] [] = .ok ([], []) ∧
    translateProg "".toList = .ok [] :=
  ⟨rfl, rfl, rfl, rfl⟩

/-- C2 (code divergence witness): applying `sort` in a constant expression
can never succeed, because the lexer tokenizes `sort` as the keyword token
SORT while the expression evaluator only dispatches sort on NAME tokens and
rejects every other token kind.  On the claim's own example — a constant
bound to an already-sorted sequence — the pipeline fails with the
evaluator's UnexpectedToken error at the SORT token instead of producing
the sorted sequence. -/
theorem sort_expression_always_fails :
    translateProg "arr <- [1.0; 2.0; 3.0]; r <- .(arr sort()).;".toList =
      .error (.eval (.unexpectedToken .SORT ⟨.SORT, .str "sort", 1, 36⟩)) := by
  rfl

/-- C3 (code divergence witness): applying `sort` to a non-sequence operand
does fail, but with the evaluator's UnexpectedToken error at the SORT
keyword token — the TypeMismatch check (`sort() ожидает массив`) is never
reached, for the same dispatch reason as in C2. -/
theorem sort_non_sequence_fails_with_unexpected_token :
    translateProg "num <- 42.0; r <- .(num sort()).;".toList =
      .error (.eval (.unexpectedToken .SORT ⟨.SORT, .str "sort", 1, 25⟩)) := by
  rfl

/-- C7: once the postfix evaluator has processed all tokens of a captured
run without error, leaving stack `s`, the expression evaluation fails with
MalformedExpression reporting `s.length` exactly when the stack does not
hold exactly one value, and otherwise returns that single value. -/
theorem final_stack_size_check (env : List (String × Value)) (ts : List Token)
    (s : List Value) (h : evalExprGo env ts [] = .ok s) :
    (s.length ≠ 1 → evaluateExpression env ts = .error (.malformedExpr s.length)) ∧
    (∀ v, s = [v] → evaluateExpression env ts = .ok v) := by
  constructor
  · intro hne
    unfold evaluateExpression
    rw [h]
    cases s with
    | nil => rfl
    | cons v t =>
      cases t with
      | nil => exact absurd rfl hne
      | cons v2 t2 => rfl
  · rintro v rfl
    unfold evaluateExpression
    rw [h]
    rfl

/-- C7 witness: a run leaving two values on the stack fails with
MalformedExpression 2; a run leaving one value returns it. -/
theorem final_stack_size_check_witness :
    evaluateExpression [] [⟨.NUMBER, .num 1, 1, 1⟩, ⟨.NUMBER, .num 2, 1, 3⟩] =
      .error (.malformedExpr 2) ∧
    evaluateExpression [] [⟨.NUMBER, .num 1, 1, 1⟩] = .ok (.num 1) :=
  ⟨(final_stack_size_check [] [⟨.NUMBER, .num 1, 1, 1⟩, ⟨.NUMBER, .num 2, 1, 3⟩]
      [.num 2, .num 1] rfl).1 (by decide),
   (final_stack_size_check [] [⟨.NUMBER, .num 1, 1, 1⟩] [.num 1] rfl).2 (.num 1) rfl⟩

/-- C5: a PLUS token pops `b` then `a` (`b` the top of stack); two numbers
push `a + b`; two sequences push the concatenation of `a`'s elements
followed by `b`'s (whose length is the sum of the lengths); any other kind
combination fails with the type-mismatch error naming both operand kinds;
fewer than two operands fail with the PLUS stack-underflow error.  The last
conjunct is the surface form `.(A B +).` for constants bound to
sequences. -/
theorem plus_token_semantics (env : List (String × Value)) (t : Token)
    (ht : t.type = .PLUS) :
    (∀ (x y : ℚ) (rest : List Value),
       evalExprStep env (.num y :: .num x :: rest) t = .ok (.num (x + y) :: rest)) ∧
    (∀ (A B : List Value) (rest : List Value),
       evalExprStep env (.seq B :: .seq A :: rest) t = .ok (.seq (A ++ B) :: rest) ∧
       (A ++ B).length = A.length + B.length) ∧
    (∀ (a b : Value) (rest : List Value),
       ¬(a.kind = .number ∧ b.kind = .number) →
       ¬(a.kind = .sequence ∧ b.kind = .sequence) →
       evalExprStep env (b :: a :: rest) t = .error (.typeMismatchPlus a.kind b.kind t)) ∧
    (∀ stack : List Value, stack.length < 2 →
       evalExprStep env stack t = .error (.stackUnderflowPlus t)) ∧
    (∀ (na nb : String) (A B : List Value) (ta tb : Token),
       ta.type = .NAME → ta.value = .str na → tb.type = .NAME → tb.value = .str nb →
       na ≠ "sort" → nb ≠ "sort" →
       pyLookup env na = some (.seq A) → pyLookup env nb = some (.seq B) →
       evaluateExpression env [ta, tb, t] = .ok (.seq (A ++ B))) := by
  refine ⟨?_, ?_, ?_, ?_, ?_⟩
  · intro x y rest
    simp [evalExprStep, ht]
  · intro A B rest
    simp [evalExprStep, ht]
  · intro a b rest h1 h2
    cases a <;> cases b <;> simp_all [evalExprStep, Value.kind]
  · intro stack hlen
    match stack, hlen with
    | [], _ => simp [evalExprStep, ht]
    | [v], _ => simp [evalExprStep, ht]
  · intro na nb A B ta tb hta htav htb htbv hna hnb hla hlb
    have hsa : ta.value ≠ .str "sort" := by
      rw [htav]; intro hc; injection hc with hc; exact hna hc
    have hsb : tb.value ≠ .str "sort" := by
      rw [htbv]; intro hc; injection hc with hc; exact hnb hc
    simp [evaluateExpression, evalExprGo, evalExprStep, ht, hta, htb, hsa, hsb,
      htav, htbv, TokenValue.sval, hla, hlb, hna, hnb]

/-- C5 witness: concrete instances of each PLUS behaviour, obtained from
`plus_token_semantics` at the token `⟨PLUS, "+", 1, 1⟩`. -/
theorem plus_token_semantics_witness :
    evalExprStep [] [.num 2, .num 1] ⟨.PLUS, .str "+", 1, 1⟩ = .ok [.num 3] ∧
    evalExprStep [] [.seq [.num 2], .seq [.num 1]] ⟨.PLUS, .str "+", 1, 1⟩ =
      .ok [.seq [.num 1, .num 2]] ∧
    evalExprStep [] [.seq [], .num 1] ⟨.PLUS, .str "+", 1, 1⟩ =
      .error (.typeMismatchPlus .number .sequence ⟨.PLUS, .str "+", 1, 1⟩) ∧
    evalExprStep [] [.num 1] ⟨.PLUS, .str "+", 1, 1⟩ =
      .error (.stackUnderflowPlus ⟨.PLUS, .str "+", 1, 1⟩) ∧
    evaluateExpression [("p", .seq [.num 1]), ("q", .seq [.num 2, .num 3])]
      [⟨.NAME, .str "p", 1, 1⟩, ⟨.NAME, .str "q", 1, 3⟩, ⟨.PLUS, .str "+", 1, 5⟩] =
      .ok (.seq [.num 1, .num 2, .num 3]) := by
  have h := plus_token_semantics [] ⟨.PLUS, .str "+", 1, 1⟩ rfl
  have h2 := plus_token_semantics [("p", .seq [.num 1]), ("q", .seq [.num 2, .num 3])]
    ⟨.PLUS, .str "+", 1, 5⟩ rfl
  have c1 := h.1 1 2 []
  norm_num at c1
  exact ⟨c1, (h.2.1 [.num 1] [.num 2] []).1,
    h.2.2.1 (.num 1) (.seq []) [] (by decide) (by decide),
    h.2.2.2.1 [.num 1] (by decide),
    h2.2.2.2.2 "p" "q" [.num 1] [.num 2, .num 3] ⟨.NAME, .str "p", 1, 1⟩
      ⟨.NAME, .str "q", 1, 3⟩ rfl rfl rfl rfl (by decide) (by decide) rfl rfl⟩

/-- C6: a MINUS token pops two operands that must both be numbers and
produces `a − b` with `a` the operand pushed earlier; any non-number
operand fails with the type-mismatch error; fewer than two operands fail
with the MINUS stack-underflow error.  The fourth conjunct is the surface
form `.(a b -).`; the last is the claim's end-to-end scenario
`(10 + 5) − 3 = 12`. -/
theorem minus_token_semantics (env : List (String × Value)) (t : Token)
    (ht : t.type = .MINUS) :
    (∀ (x y : ℚ) (rest : List Value),
       evalExprStep env (.num y :: .num x :: rest) t = .ok (.num (x - y) :: rest)) ∧
    (∀ (a b : Value) (rest : List Value),
       ¬(a.kind = .number ∧ b.kind = .number) →
       evalExprStep env (b :: a :: rest) t = .error (.typeMismatchMinus a.kind b.kind t)) ∧
    (∀ stack : List Value, stack.length < 2 →
       evalExprStep env stack t = .error (.stackUnderflowMinus t)) ∧
    (∀ (na nb : String) (x y : ℚ) (ta tb : Token),
       ta.type = .NAME → ta.value = .str na → tb.type = .NAME → tb.value = .str nb →
       na ≠ "sort" → nb ≠ "sort" →
       pyLookup env na = some (.num x) → pyLookup env nb = some (.num y) →
       evaluateExpression env [ta, tb, t] = .ok (.num (x - y))) ∧
    translateProg "a<-10.0; b<-5.0; c<-3.0; result<-.(a b + c -).;".toList =
      .ok [("a", .num 10), ("b", .num 5), ("c", .num 3), ("result", .num 12)] := by
  refine ⟨?_, ?_, ?_, ?_, ?_⟩
  case refine_5 =>
    have h : translateProg "a<-10.0; b<-5.0; c<-3.0; result<-.(a b + c -).;".toList =
        .ok [("a", .num (litToRat "10.0".toList)), ("b", .num (litToRat "5.0".toList)),
             ("c", .num (litToRat "3.0".toList)),
             ("result", .num (litToRat "10.0".toList + litToRat "5.0".toList -
               litToRat "3.0".toList))] := rfl
    rw [h]
    simp only [litToRat_ten, litToRat_five, litToRat_three]
    norm_num
  · intro x y rest
    simp [evalExprStep, ht]
  · intro a b rest h1
    cases a <;> cases b <;> simp_all [evalExprStep, Value.kind]
  · intro stack hlen
    match stack, hlen with
    | [], _ => simp [evalExprStep, ht]
    | [v], _ => simp [evalExprStep, ht]
  · intro na nb x y ta tb hta htav htb htbv hna hnb hla hlb
    have hsa : ta.value ≠ .str "sort" := by
      rw [htav]; intro hc; injection hc with hc; exact hna hc
    have hsb : tb.value ≠ .str "sort" := by
      rw [htbv]; intro hc; injection hc with hc; exact hnb hc
    simp [evaluateExpression, evalExprGo, evalExprStep, ht, hta, htb, hsa, hsb,
      htav, htbv, TokenValue.sval, hla, hlb, hna, hnb]

/-- C6 witness: concrete instances of each MINUS behaviour, obtained from
`minus_token_semantics` at the token `⟨MINUS, "-", 1, 1⟩`: `.(7 2 -).`
evaluates to `5` (earlier operand minus later), not `−5`. -/
theorem minus_token_semantics_witness :
    evalExprStep [] [.num 2, .num 7] ⟨.MINUS, .str "-", 1, 1⟩ = .ok [.num 5] ∧
    evalExprStep [] [.num 1, .seq []] ⟨.MINUS, .str "-", 1, 1⟩ =
      .error (.typeMismatchMinus .sequence .number ⟨.MINUS, .str "-", 1, 1⟩) ∧
    evalExprStep [] [] ⟨.MINUS, .str "-", 1, 1⟩ =
      .error (.stackUnderflowMinus ⟨.MINUS, .str "-", 1, 1⟩) ∧
    evaluateExpression [("a", .num 7), ("b", .num 2)]
      [⟨.NAME, .str "a", 1, 1⟩, ⟨.NAME, .str "b", 1, 3⟩, ⟨.MINUS, .str "-", 1, 5⟩] =
      .ok (.num 5) := by
  have h := minus_token_semantics [] ⟨.MINUS, .str "-", 1, 1⟩ rfl
  have h2 := minus_token_semantics [("a", .num 7), ("b", .num 2)]
    ⟨.MINUS, .str "-", 1, 5⟩ rfl
  have c1 := h.1 7 2 []
  norm_num at c1
  refine ⟨c1, h.2.1 (.seq []) (.num 1) [] (by decide),
    h.2.2.1 [] (by decide), ?_⟩
  have c4 := h2.2.2.2.1 "a" "b" 7 2 ⟨.NAME, .str "a", 1, 1⟩ ⟨.NAME, .str "b", 1, 3⟩
    rfl rfl rfl rfl (by decide) (by decide) rfl rfl
  norm_num at c4
  exact c4

/-- C4: in the left-to-right statement fold, a Name reference fails with
UnknownConstant exactly when no declaration of that name precedes it (no
forward references), and after a redeclaration the name resolves to the
value bound by its most recent declaration: the final environment's binding
for `nm` agrees with the binding right after the last declaration of `nm`,
and a Name node lookup returns it. -/
theorem name_resolution (nodes : List Node) (res env : List (String × Value))
    (nm : String) (h : evaluateAll nodes [] = .ok (res, env)) :
    (declares nodes nm = false →
      evalNode env (.name nm) = .error (.unknownConst nm Option.none)) ∧
    ((∃ v, evalNode env (.name nm) = .ok v) → declares nodes nm = true) ∧
    (∀ p1 vnode p2, nodes = p1 ++ .constDecl nm vnode :: p2 →
      declares p2 nm = false →
      ∃ res1 env1 v, evaluateAll (p1 ++ [.constDecl nm vnode]) [] = .ok (res1, env1) ∧
        pyLookup env1 nm = some v ∧ pyLookup env nm = some v ∧
        evalNode env (.name nm) = .ok v) := by
  have key : declares nodes nm = false → pyLookup env nm = Option.none := by
    intro hd
    have := evaluateAllGo_env_no_decl nodes nm [] [] res env hd h
    simpa [pyLookup] using this
  refine ⟨?_, ?_, ?_⟩
  · intro hd
    have hl := key hd
    simp [evalNode, hl]
  · rintro ⟨v, hv⟩
    by_contra hd
    have hd' : declares nodes nm = false := by
      cases hdc : declares nodes nm with
      | false => rfl
      | true => exact absurd hdc hd
    have hl := key hd'
    simp [evalNode, hl] at hv
  · intro p1 vnode p2 hsplit hp2
    have hassoc : nodes = (p1 ++ [Node.constDecl nm vnode]) ++ p2 := by
      rw [hsplit]; simp
    have h' : evaluateAllGo ((p1 ++ [Node.constDecl nm vnode]) ++ p2) [] [] =
        .ok (res, env) := by
      rw [← hassoc]; exact h
    rw [evaluateAllGo_append] at h'
    cases hmid : evaluateAllGo (p1 ++ [Node.constDecl nm vnode]) [] [] with
    | error e => rw [hmid] at h'; simp [Except.bind] at h'
    | ok q =>
      obtain ⟨res1, env1⟩ := q
      rw [hmid] at h'
      simp only [Except.bind] at h'
      have henv : pyLookup env nm = pyLookup env1 nm :=
        evaluateAllGo_env_no_decl p2 nm res1 env1 res env hp2 h'
      have h'' := hmid
      rw [evaluateAllGo_append] at h''
      cases hpre : evaluateAllGo p1 [] [] with
      | error e => rw [hpre] at h''; simp [Except.bind] at h''
      | ok q2 =>
        obtain ⟨resA, envA⟩ := q2
        rw [hpre] at h''
        simp only [Except.bind] at h''
        simp only [evaluateAllGo] at h''
        cases hv : evalNode envA vnode with
        | error e => rw [hv] at h''; simp at h''
        | ok v =>
          rw [hv] at h''
          simp only [except_ok_bind, evaluateAllGo] at h''
          have henv1 : env1 = pyUpsert envA nm v := by
            have := h''
            injection this with this2
            injection this2 with _ h3
            exact h3.symm
          have hlook1 : pyLookup env1 nm = some v := by
            rw [henv1]; exact pyLookup_upsert_self envA nm v
          refine ⟨res1, env1, v, hmid, hlook1, by rw [henv, hlook1], ?_⟩
          simp [evalNode, henv, hlook1]

/-- C4 witness: with `x` declared twice (first `1.0`, then `2.0`) the later
reference resolves to `2`, and an undeclared name fails with
UnknownConstant.  Both facts come from `name_resolution` applied at
concrete inputs. -/
theorem name_resolution_witness :
    evalNode [("x", Value.num 2)] (.name "x") = .ok (.num 2) ∧
    evalNode [("x", Value.num 2)] (.name "y") =
      .error (.unknownConst "y" Option.none) := by
  have h := name_resolution
    [Node.constDecl "x" (.number 1), Node.constDecl "x" (.number 2)]
    [("x", Value.num 2)] [("x", Value.num 2)] "x" rfl
  have hy := name_resolution
    [Node.constDecl "x" (.number 1), Node.constDecl "x" (.number 2)]
    [("x", Value.num 2)] [("x", Value.num 2)] "y" rfl
  obtain ⟨res1, env1, v, -, -, hlv, hev⟩ :=
    h.2.2 [Node.constDecl "x" (.number 1)] (.number 2) [] rfl (by decide)
  have hveq : v = Value.num 2 := by
    simpa [pyLookup] using hlv.symm
  exact ⟨hveq ▸ hev, hy.1 (by decide)⟩

/-- C1: for every valid numeric literal `N` (digits, optionally followed by
a dot and further digits, so a trailing dot is allowed), lexing, parsing and
evaluating the program `x <- N;` succeeds and yields the output mapping
binding `x` to the literal's numeric value. -/
theorem numeric_literal_declaration (N : List Char) (h : ValidNumLit N) :
    translateProg ("x <- ".toList ++ (N ++ [';'])) =
      .ok [("x", .num (litToRat N))] := by
  unfold translateProg
  rw [tokenize_decl_lit N h]
  rfl

/-- C1 witness: `x <- 42.0;` yields the mapping `x ↦ 42`. -/
theorem numeric_literal_declaration_witness :
    translateProg "x <- 42.0;".toList = .ok [("x", .num 42)] := by
  have hv : ValidNumLit "42.0".toList :=
    Or.inr ⟨['4', '2'], ['0'], rfl, by decide, by decide, by decide⟩
  have h := numeric_literal_declaration "42.0".toList hv
  rw [show ("x <- ".toList ++ ("42.0".toList ++ [';'])) = "x <- 42.0;".toList
    from rfl] at h
  rw [h, litToRat_fortytwo]

/-- C8 counterexample: on the input `MyVar`, whose identifier begins with an
uppercase letter, lexing fails with the UnexpectedCharacter error (the
generic "Неожиданный символ" raise in `tokenize`), not with the
InvalidCharacter error the claim requires; the two error kinds are
distinct. -/
theorem uppercase_first_char_counterexample :
    tokenize "MyVar".toList = .error ⟨.unexpectedChar 'M', 1, 1⟩ ∧
    LexErrKind.unexpectedChar 'M' ≠ LexErrKind.invalidChar 'M' :=
  ⟨rfl, by decide⟩

/-- C8 (amended): an uppercase letter at a non-initial position of an
identifier fails with InvalidCharacter identifying the character and its
1-based position, from any scanner state; an uppercase letter where a token
is expected to begin — including as the would-be first character of an
identifier — instead fails with UnexpectedCharacter at that position. -/
theorem uppercase_in_identifier (l c : Nat) :
    (∀ (c0 : Char) (mid : List Char) (u : Char) (tail : List Char),
      c0.isLower = true →
      (∀ x ∈ mid, (x.isAlphanum || x = '_') = true ∧ x.isUpper = false) →
      u.isUpper = true →
      lexLoop (c0 :: (mid ++ u :: tail)) l c =
        .error ⟨.invalidChar u, l, c + 1 + mid.length⟩) ∧
    (∀ (u : Char) (s : List Char), u.isUpper = true →
      lexLoop (u :: s) l c = .error ⟨.unexpectedChar u, l, c⟩) := by
  constructor
  · intro c0 mid u tail h0 hmid hu
    have hA : ¬(c0 = ' ' ∨ c0 = '\t' ∨ c0 = '\r') := by
      rintro (hc | hc | hc) <;> (subst hc; exact absurd h0 (by decide))
    have hB : c0 ≠ '\n' := char_pred_ne h0 '\n' (by decide)
    have hD : c0.isDigit = false := lower_not_digit c0 h0
    show lexGo ((c0 :: (mid ++ u :: tail)).length + 1) (c0 :: (mid ++ u :: tail)) l c = _
    simp only [lexGo]
    rw [if_neg hA, if_neg (hB ·), if_neg (fun hc => (char_pred_ne h0 ':' (by decide)) hc.1),
      if_neg (fun hc => (char_pred_ne h0 '<' (by decide)) hc.1),
      if_neg (by rw [hD]; exact Bool.noConfusion), if_pos h0]
    rw [readNameChars_upper mid u tail hmid hu]
  · intro u s hu
    have hA : ¬(u = ' ' ∨ u = '\t' ∨ u = '\r') := by
      rintro (hc | hc | hc) <;> (subst hc; exact absurd hu (by decide))
    have hB : u ≠ '\n' := char_pred_ne hu '\n' (by decide)
    have hD : u.isDigit = false := upper_not_digit u hu
    have hL : u.isLower = false := upper_not_lower u hu
    show lexGo ((u :: s).length + 1) (u :: s) l c = _
    simp only [lexGo]
    rw [if_neg hA, if_neg (hB ·), if_neg (fun hc => (char_pred_ne hu ':' (by decide)) hc.1),
      if_neg (fun hc => (char_pred_ne hu '<' (by decide)) hc.1),
      if_neg (by rw [hD]; exact Bool.noConfusion),
      if_neg (by rw [hL]; exact Bool.noConfusion),
      if_neg (char_pred_ne hu '[' (by decide) ·),
      if_neg (char_pred_ne hu ']' (by decide) ·),
      if_neg (char_pred_ne hu '\x7b' (by decide) ·),
      if_neg (char_pred_ne hu '\x7d' (by decide) ·),
      if_neg (char_pred_ne hu '(' (by decide) ·),
      if_neg (char_pred_ne hu ')' (by decide) ·),
      if_neg (char_pred_ne hu ';' (by decide) ·),
      if_neg (char_pred_ne hu '=' (by decide) ·),
      if_neg (fun hc => (char_pred_ne hu '<' (by decide)) hc.1),
      if_neg (char_pred_ne hu '.' (by decide) ·),
      if_neg (char_pred_ne hu '+' (by decide) ·),
      if_neg (char_pred_ne hu '-' (by decide) ·)]

/-- C8 amended witness: `myVariable` fails with InvalidCharacter at the
uppercase `V` (line 1, column 3); `MyVar` fails with UnexpectedCharacter at
`M` (line 1, column 1). -/
theorem uppercase_in_identifier_witness :
    tokenize "myVariable".toList = .error ⟨.invalidChar 'V', 1, 3⟩ ∧
    tokenize "MyVar".toList = .error ⟨.unexpectedChar 'M', 1, 1⟩ := by
  have h := uppercase_in_identifier 1 1
  constructor
  · have h1 := h.1 'm' ['y'] 'V' "ariable".toList (by decide) (by decide) (by decide)
    exact h1
  · exact h.2 'M' "yVar".toList (by decide)

theorem obsEat_cases (w : TokenType) {ts ts' : List Token}
    (h : ts.map stripTok = ts'.map stripTok) :
    (∃ e e', eat w ts = .error e ∧ eat w ts' = .error e') ∨
    (∃ t r t' r', eat w ts = .ok (t, r) ∧ eat w ts' = .ok (t', r') ∧
      stripTok t = stripTok t' ∧ r.map stripTok = r'.map stripTok) := by
  have hobs := eat_obs w h
  cases h1 : eat w ts with
  | error e =>
    cases h2 : eat w ts' with
    | error e' => exact Or.inl ⟨e, e', rfl, rfl⟩
    | ok p => rw [h1, h2] at hobs; obtain ⟨t', r'⟩ := p; simp [obsEat] at hobs
  | ok p =>
    obtain ⟨t, r⟩ := p
    cases h2 : eat w ts' with
    | error e' => rw [h1, h2] at hobs; simp [obsEat] at hobs
    | ok p' =>
      obtain ⟨t', r'⟩ := p'
      rw [h1, h2] at hobs
      simp [obsEat] at hobs
      exact Or.inr ⟨t, r, t', r', rfl, rfl, hobs.1, hobs.2⟩

theorem obsParse1_cases {x y : Except ParseErr (Node × List Token)}
    (h : obsParse1 x = obsParse1 y) :
    (∃ e e', x = .error e ∧ y = .error e') ∨
    (∃ n r n' r', x = .ok (n, r) ∧ y = .ok (n', r') ∧ stripNode n = stripNode n' ∧
      r.map stripTok = r'.map stripTok) := by
  cases x with
  | error e =>
    cases y with
    | error e' => exact Or.inl ⟨e, e', rfl, rfl⟩
    | ok p => obtain ⟨n', r'⟩ := p; simp [obsParse1] at h
  | ok p =>
    obtain ⟨n, r⟩ := p
    cases y with
    | error e' => simp [obsParse1] at h
    | ok p' =>
      obtain ⟨n', r'⟩ := p'
      simp [obsParse1] at h
      exact Or.inr ⟨n, r, n', r', rfl, rfl, h.1, h.2⟩

theorem obsParseL_cases {x y : Except ParseErr (List Node × List Token)}
    (h : obsParseL x = obsParseL y) :
    (∃ e e', x = .error e ∧ y = .error e') ∨
    (∃ ns r ns' r', x = .ok (ns, r) ∧ y = .ok (ns', r') ∧
      stripNodeList ns = stripNodeList ns' ∧ r.map stripTok = r'.map stripTok) := by
  cases x with
  | error e =>
    cases y with
    | error e' => exact Or.inl ⟨e, e', rfl, rfl⟩
    | ok p => obtain ⟨n', r'⟩ := p; simp [obsParseL] at h
  | ok p =>
    obtain ⟨n, r⟩ := p
    cases y with
    | error e' => simp [obsParseL] at h
    | ok p' =>
      obtain ⟨n', r'⟩ := p'
      simp [obsParseL] at h
      exact Or.inr ⟨n, r, n', r', rfl, rfl, h.1, h.2⟩

theorem parse_obs : ∀ fuel : Nat,
    (∀ ts ts' : List Token, ts.map stripTok = ts'.map stripTok →
      obsParse1 (parseValue fuel ts) = obsParse1 (parseValue fuel ts')) ∧
    (∀ ts ts' : List Token, ts.map stripTok = ts'.map stripTok →
      obsParse1 (parseArray fuel ts) = obsParse1 (parseArray fuel ts')) ∧
    (∀ (ts ts' : List Token) (acc acc' : List Node), ts.map stripTok = ts'.map stripTok →
      stripNodeList acc = stripNodeList acc' →
      obsParse1 (parseArrayLoop fuel ts acc) = obsParse1 (parseArrayLoop fuel ts' acc')) ∧
    (∀ ts ts' : List Token, ts.map stripTok = ts'.map stripTok →
      obsParse1 (parseDict fuel ts) = obsParse1 (parseDict fuel ts')) ∧
    (∀ (ts ts' : List Token) (acc acc' : List (String × Node)),
      ts.map stripTok = ts'.map stripTok → stripNodePairs acc = stripNodePairs acc' →
      obsParse1 (parseDictLoop fuel ts acc) = obsParse1 (parseDictLoop fuel ts' acc')) ∧
    (∀ ts ts' : List Token, ts.map stripTok = ts'.map stripTok →
      obsParse1 (parseConstExpr fuel ts) = obsParse1 (parseConstExpr fuel ts')) ∧
    (∀ (ts ts' : List Token) (count : Nat) (acc acc' : List Token),
      ts.map stripTok = ts'.map stripTok → acc.map stripTok = acc'.map stripTok →
      obsParse1 (captureExpr fuel ts count acc) = obsParse1 (captureExpr fuel ts' count acc')) ∧
    (∀ ts ts' : List Token, ts.map stripTok = ts'.map stripTok →
      obsParse1 (parseStatement fuel ts) = obsParse1 (parseStatement fuel ts')) ∧
    (∀ ts ts' : List Token, ts.map stripTok = ts'.map stripTok →
      obsParseL (parseProgram fuel ts) = obsParseL (parseProgram fuel ts')) := by
  intro fuel
  induction fuel with
  | zero =>
    exact ⟨fun _ _ _ => rfl, fun _ _ _ => rfl, fun _ _ _ _ _ _ => rfl, fun _ _ _ => rfl,
      fun _ _ _ _ _ _ => rfl, fun _ _ _ => rfl, fun _ _ _ _ _ _ _ => rfl,
      fun _ _ _ => rfl, fun _ _ _ => rfl⟩
  | succ fuel ih =>
    obtain ⟨ihV, ihA, ihAL, ihD, ihDL, ihC, ihCap, ihS, ihP⟩ := ih
    refine ⟨?_, ?_, ?_, ?_, ?_, ?_, ?_, ?_, ?_⟩
    · -- parseValue
      intro ts ts' h
      rcases map_strip_cases h with ⟨rfl, rfl⟩ | ⟨t, r, t', r', rfl, rfl, ht, hr⟩
      · rfl
      · obtain ⟨hty, hv⟩ := stripTok_fields ht
        simp only [parseValue]
        rw [← hty]
        cases htt : t.type
        case NUMBER => simp [obsParse1, stripNode, hv, hr]
        case NAME => simp [obsParse1, stripNode, hv, hr]
        case LBRACKET => exact ihA _ _ h
        case LBRACE => exact ihD _ _ h
        case DOT => exact ihC _ _ h
        all_goals rfl
    · -- parseArray
      intro ts ts' h
      simp only [parseArray]
      rcases obsEat_cases .LBRACKET h with ⟨e, e', h1, h2⟩ | ⟨t1, r1, t1', r1', h1, h2, ht1, hr1⟩
      · rw [h1, h2]; rfl
      · rw [h1, h2]
        simp only [except_ok_bind]
        rcases map_strip_cases hr1 with ⟨rfl, rfl⟩ | ⟨t, r, t', r', rfl, rfl, ht, hr⟩
        · rfl
        · obtain ⟨hty, hv⟩ := stripTok_fields ht
          simp only []
          by_cases hrb : t.type = .RBRACKET
          · rw [if_pos hrb, if_pos (hty ▸ hrb)]
            simp [obsParse1, stripNode, stripNodeList, hr]
          · rw [if_neg hrb, if_neg (hty ▸ hrb)]
            exact ihAL _ _ [] [] hr1 rfl
    · -- parseArrayLoop
      intro ts ts' acc acc' h hacc
      simp only [parseArrayLoop]
      rcases obsParse1_cases (ihV ts ts' h) with ⟨e, e', h1, h2⟩ | ⟨v, r1, v', r1', h1, h2, hsv, hr1⟩
      · rw [h1, h2]; rfl
      · rw [h1, h2]
        simp only [except_ok_bind]
        rcases map_strip_cases hr1 with ⟨rfl, rfl⟩ | ⟨t, r, t', r', rfl, rfl, ht, hr⟩
        · rfl
        · obtain ⟨hty, hv2⟩ := stripTok_fields ht
          simp only []
          by_cases hsemi : t.type = .SEMICOLON
          · rw [if_pos hsemi, if_pos (hty ▸ hsemi)]
            rcases map_strip_cases hr with ⟨rfl, rfl⟩ | ⟨t2, r2, t2', r2', rfl, rfl, ht2, hr2⟩
            · rfl
            · obtain ⟨hty2, hv3⟩ := stripTok_fields ht2
              simp only []
              by_cases hrb : t2.type = .RBRACKET
              · rw [if_pos hrb, if_pos (hty2 ▸ hrb)]
                simp [obsParse1, stripNode, stripNodeList_append, stripNodeList, hacc, hsv, hr2]
              · rw [if_neg hrb, if_neg (hty2 ▸ hrb)]
                refine ihAL _ _ _ _ hr ?_
                simp [stripNodeList_append, stripNodeList, hacc, hsv]
          · have hsemi2 : ¬ t'.type = TokenType.SEMICOLON := by rw [← hty]; exact hsemi
            by_cases hrb : t.type = .RBRACKET
            · have hrb2 : t'.type = TokenType.RBRACKET := by rw [← hty]; exact hrb
              rw [if_neg hsemi, if_neg hsemi2, if_pos hrb, if_pos hrb2]
              simp [obsParse1, stripNode, stripNodeList_append, stripNodeList, hacc, hsv, hr]
            · have hrb2 : ¬ t'.type = TokenType.RBRACKET := by rw [← hty]; exact hrb
              rw [if_neg hsemi, if_neg hsemi2, if_neg hrb, if_neg hrb2]
              rfl
    · -- parseDict
      intro ts ts' h
      simp only [parseDict]
      rcases obsEat_cases .LBRACE h with ⟨e, e', h1, h2⟩ | ⟨t1, r1, t1', r1', h1, h2, ht1, hr1⟩
      · rw [h1, h2]; rfl
      · rw [h1, h2]
        simp only [except_ok_bind]
        rcases map_strip_cases hr1 with ⟨rfl, rfl⟩ | ⟨t, r, t', r', rfl, rfl, ht, hr⟩
        · rfl
        · obtain ⟨hty, hv⟩ := stripTok_fields ht
          simp only []
          by_cases hrb : t.type = .RBRACE
          · rw [if_pos hrb, if_pos (hty ▸ hrb)]
            simp [obsParse1, stripNode, stripNodePairs, hr]
          · rw [if_neg hrb, if_neg (hty ▸ hrb)]
            exact ihDL _ _ [] [] hr1 rfl
    · -- parseDictLoop
      intro ts ts' acc acc' h hacc
      simp only [parseDictLoop]
      rcases map_strip_cases h with ⟨rfl, rfl⟩ | ⟨t, r, t', r', rfl, rfl, ht, hr⟩
      · rfl
      · obtain ⟨hty, hv⟩ := stripTok_fields ht
        simp only []
        by_cases hn : t.type = .NAME
        · rw [if_pos hn, if_pos (hty ▸ hn)]
          rcases obsEat_cases .EQUALS hr with ⟨e, e', h1, h2⟩ | ⟨t1, r1, t1', r1', h1, h2, ht1, hr1⟩
          · rw [h1, h2]; rfl
          · rw [h1, h2]
            simp only [except_ok_bind]
            rcases obsParse1_cases (ihV r1 r1' hr1) with ⟨e, e', h3, h4⟩ | ⟨v, r2, v', r2', h3, h4, hsv, hr2⟩
            · rw [h3, h4]; rfl
            · rw [h3, h4]
              simp only [except_ok_bind]
              rcases map_strip_cases hr2 with ⟨rfl, rfl⟩ | ⟨t2, r2a, t2', r2a', rfl, rfl, ht2, hr2a⟩
              · rfl
              · obtain ⟨hty2, hv2⟩ := stripTok_fields ht2
                simp only []
                by_cases hsemi : t2.type = .SEMICOLON
                · rw [if_pos hsemi, if_pos (hty2 ▸ hsemi)]
                  rcases map_strip_cases hr2a with ⟨rfl, rfl⟩ | ⟨t3, r3, t3', r3', rfl, rfl, ht3, hr3⟩
                  · rfl
                  · obtain ⟨hty3, hv3⟩ := stripTok_fields ht3
                    simp only []
                    by_cases hrb : t3.type = .RBRACE
                    · rw [if_pos hrb, if_pos (hty3 ▸ hrb)]
                      simp [obsParse1, stripNode, stripNodePairs_upsert, hacc, hsv, hv, hr3]
                    · rw [if_neg hrb, if_neg (hty3 ▸ hrb)]
                      refine ihDL _ _ _ _ hr2a ?_
                      rw [stripNodePairs_upsert, stripNodePairs_upsert, hacc, hsv, hv]
                · have hsemi2 : ¬ t2'.type = TokenType.SEMICOLON := by rw [← hty2]; exact hsemi
                  by_cases hrb : t2.type = .RBRACE
                  · have hrb2 : t2'.type = TokenType.RBRACE := by rw [← hty2]; exact hrb
                    rw [if_neg hsemi, if_neg hsemi2, if_pos hrb, if_pos hrb2]
                    simp [obsParse1, stripNode, stripNodePairs_upsert, hacc, hsv, hv, hr2a]
                  · have hrb2 : ¬ t2'.type = TokenType.RBRACE := by rw [← hty2]; exact hrb
                    rw [if_neg hsemi, if_neg hsemi2, if_neg hrb, if_neg hrb2]
                    rfl
        · rw [if_neg hn, if_neg (hty ▸ hn)]
          rfl
    · -- parseConstExpr
      intro ts ts' h
      simp only [parseConstExpr]
      rcases obsEat_cases .DOT h with ⟨e, e', h1, h2⟩ | ⟨t1, r1, t1', r1', h1, h2, ht1, hr1⟩
      · rw [h1, h2]; rfl
      · rw [h1, h2]
        simp only [except_ok_bind]
        rcases obsEat_cases .LPAREN hr1 with ⟨e, e', h3, h4⟩ | ⟨t2, r2, t2', r2', h3, h4, ht2, hr2⟩
        · rw [h3, h4]; rfl
        · rw [h3, h4]
          simp only [except_ok_bind]
          exact ihCap _ _ 1 _ _ hr2 rfl
    · -- captureExpr
      intro ts ts' count acc acc' h hacc
      rcases map_strip_cases h with ⟨rfl, rfl⟩ | ⟨t, r, t', r', rfl, rfl, ht, hr⟩
      · rfl
      · obtain ⟨hty, hv⟩ := stripTok_fields ht
        simp only [captureExpr]
        rw [← hty]
        by_cases hc : (if t.type = .LPAREN then count + 1
            else if t.type = .RPAREN then count - 1 else count) > 0
        · rw [if_pos hc, if_pos hc]
          exact ihCap _ _ _ _ _ hr (by simp [hacc, ht])
        · rw [if_neg hc, if_neg hc]
          rcases map_strip_cases hr with ⟨rfl, rfl⟩ | ⟨d, r2, d', r2', rfl, rfl, hd, hr2⟩
          · rfl
          · obtain ⟨htyd, hvd⟩ := stripTok_fields hd
            simp only []
            by_cases hdot : d.type = .DOT
            · rw [if_pos hdot, if_pos (htyd ▸ hdot)]
              simp [obsParse1, stripNode, hacc, ht, hr2]
            · rw [if_neg hdot, if_neg (htyd ▸ hdot)]
              rfl
    · -- parseStatement
      intro ts ts' h
      simp only [parseStatement]
      rcases map_strip_cases h with ⟨rfl, rfl⟩ | ⟨t, r, t', r', rfl, rfl, ht, hr⟩
      · rfl
      · obtain ⟨hty, hv⟩ := stripTok_fields ht
        simp only []
        by_cases hn : t.type = .NAME
        · rw [if_pos hn, if_pos (hty ▸ hn)]
          rcases map_strip_cases hr with ⟨rfl, rfl⟩ | ⟨t2, r2, t2', r2', rfl, rfl, ht2, hr2⟩
          · rfl
          · obtain ⟨hty2, hv2⟩ := stripTok_fields ht2
            simp only []
            by_cases ha : t2.type = .ASSIGN
            · rw [if_pos ha, if_pos (hty2 ▸ ha)]
              rcases obsParse1_cases (ihV r2 r2' hr2) with ⟨e, e', h1, h2⟩ | ⟨v, r3, v', r3', h1, h2, hsv, hr3⟩
              · rw [h1, h2]; rfl
              · rw [h1, h2]
                simp [obsParse1, stripNode, Except.map, hsv, hr3, hv]
            · rw [if_neg ha, if_neg (hty2 ▸ ha)]
              exact ihV _ _ h
        · rw [if_neg hn, if_neg (hty ▸ hn)]
          exact ihV _ _ h
    · -- parseProgram
      intro ts ts' h
      simp only [parseProgram]
      rcases map_strip_cases h with ⟨rfl, rfl⟩ | ⟨t, r, t', r', rfl, rfl, ht, hr⟩
      · rfl
      · obtain ⟨hty, hv⟩ := stripTok_fields ht
        simp only []
        by_cases he : t.type = .EOF
        · rw [if_pos he, if_pos (hty ▸ he)]
          simp [obsParseL, stripNodeList, ht, hr]
        · rw [if_neg he, if_neg (hty ▸ he)]
          rcases obsParse1_cases (ihS (t :: r) (t' :: r') h) with ⟨e, e', h1, h2⟩ | ⟨v, r1, v', r1', h1, h2, hsv, hr1⟩
          · rw [h1, h2]; rfl
          · rw [h1, h2]
            simp only [except_ok_bind]
            rcases map_strip_cases hr1 with ⟨rfl, rfl⟩ | ⟨t2, r2, t2', r2', rfl, rfl, ht2, hr2⟩
            · simp only []
              cases h3 : parseProgram fuel ([] : List Token) with
              | error e => rfl
              | ok p => simp [obsParseL, stripNodeList, hsv]
            · obtain ⟨hty2, hv2⟩ := stripTok_fields ht2
              simp only []
              by_cases hs : t2.type = .SEMICOLON
              · rw [if_pos hs, if_pos (hty2 ▸ hs)]
                rcases obsParseL_cases (ihP r2 r2' hr2) with ⟨e, e', h3, h4⟩ | ⟨ns, r3, ns', r3', h3, h4, hns, hr3⟩
                · rw [h3, h4]; rfl
                · rw [h3, h4]
                  simp [obsParseL, stripNodeList, hsv, hns, hr3]
              · rw [if_neg hs, if_neg (hty2 ▸ hs)]
                rcases obsParseL_cases (ihP (t2 :: r2) (t2' :: r2') hr1) with ⟨e, e', h3, h4⟩ | ⟨ns, r3, ns', r3', h3, h4, hns, hr3⟩
                · rw [h3, h4]; rfl
                · rw [h3, h4]
                  simp [obsParseL, stripNodeList, hsv, hns, hr3]

theorem exceptToOpt_cases {ε α : Type} {x y : Except ε α}
    (h : exceptToOpt x = exceptToOpt y) :
    (∃ e e', x = .error e ∧ y = .error e') ∨ (∃ a, x = .ok a ∧ y = .ok a) := by
  cases x with
  | error e =>
    cases y with
    | error e' => exact Or.inl ⟨e, e', rfl, rfl⟩
    | ok a => simp [exceptToOpt] at h
  | ok a =>
    cases y with
    | error e' => simp [exceptToOpt] at h
    | ok a' =>
      simp only [exceptToOpt, Option.some.injEq] at h
      exact Or.inr ⟨a, rfl, by rw [h]⟩

theorem evalExprStep_obs (env : List (String × Value)) (stack : List Value)
    {t t' : Token} (h : stripTok t = stripTok t') :
    exceptToOpt (evalExprStep env stack t) = exceptToOpt (evalExprStep env stack t') := by
  obtain ⟨hty, hv⟩ := stripTok_fields h
  simp only [evalExprStep]
  rw [← hty, ← hv]
  cases htt : t.type
  case NAME =>
    simp only []
    by_cases hs : t.value = TokenValue.str "sort"
    · rw [if_pos hs, if_pos hs]
      cases stack with
      | nil => rfl
      | cons v rest =>
        cases v with
        | num q => rfl
        | dict ps => rfl
        | seq elems =>
          cases hps : pySorted elems with
          | ok es => rfl
          | error u => rfl
    · rw [if_neg hs, if_neg hs]
      cases hlk : pyLookup env t.value.sval with
      | some v => rfl
      | none => rfl
  case PLUS =>
    cases stack with
    | nil => rfl
    | cons b s2 =>
      cases s2 with
      | nil => rfl
      | cons a rest => cases a <;> cases b <;> rfl
  case MINUS =>
    cases stack with
    | nil => rfl
    | cons b s2 =>
      cases s2 with
      | nil => rfl
      | cons a rest => cases a <;> cases b <;> rfl
  all_goals rfl

theorem evalExprGo_obs (env : List (String × Value)) : ∀ (ts ts' : List Token)
    (stack : List Value), ts.map stripTok = ts'.map stripTok →
    exceptToOpt (evalExprGo env ts stack) = exceptToOpt (evalExprGo env ts' stack) := by
  intro ts
  induction ts with
  | nil =>
    intro ts' stack h
    cases ts' with
    | nil => rfl
    | cons a b => simp at h
  | cons t r ih =>
    intro ts' stack h
    cases ts' with
    | nil => simp at h
    | cons t' r' =>
      simp only [List.map_cons, List.cons.injEq] at h
      obtain ⟨ht, hr⟩ := h
      simp only [evalExprGo]
      rcases exceptToOpt_cases (evalExprStep_obs env stack ht) with ⟨e, e', h1, h2⟩ | ⟨s', h1, h2⟩
      · rw [h1, h2]; try rfl
      · rw [h1, h2]
        simp only [except_ok_bind]
        exact ih r' s' hr

theorem evaluateExpression_obs (env : List (String × Value)) {ts ts' : List Token}
    (h : ts.map stripTok = ts'.map stripTok) :
    exceptToOpt (evaluateExpression env ts) = exceptToOpt (evaluateExpression env ts') := by
  simp only [evaluateExpression]
  rcases exceptToOpt_cases (evalExprGo_obs env ts ts' [] h) with ⟨e, e', h1, h2⟩ | ⟨s, h1, h2⟩
  · rw [h1, h2]; try rfl
  · rw [h1, h2]; try rfl

theorem evalNode_obs_aux (env : List (String × Value)) : ∀ k : Nat,
    (∀ n n' : Node, sizeOf n < k → stripNode n = stripNode n' →
      exceptToOpt (evalNode env n) = exceptToOpt (evalNode env n')) ∧
    (∀ ns ns' : List Node, sizeOf ns < k → stripNodeList ns = stripNodeList ns' →
      exceptToOpt (evalNodeList env ns) = exceptToOpt (evalNodeList env ns')) ∧
    (∀ ps ps' : List (String × Node), sizeOf ps < k → stripNodePairs ps = stripNodePairs ps' →
      exceptToOpt (evalNodePairs env ps) = exceptToOpt (evalNodePairs env ps')) := by
  intro k
  induction k with
  | zero =>
    exact ⟨fun _ _ h _ => absurd h (Nat.not_lt_zero _),
      fun _ _ h _ => absurd h (Nat.not_lt_zero _),
      fun _ _ h _ => absurd h (Nat.not_lt_zero _)⟩
  | succ k ih =>
    obtain ⟨ihN, ihL, ihP⟩ := ih
    refine ⟨?_, ?_, ?_⟩
    · intro n n' hk hh
      cases n <;> cases n' <;> (try (simp only [stripNode] at hh)) <;>
        (try exact Node.noConfusion hh)
      case number.number v v' =>
        simp only [Node.number.injEq] at hh
        rw [hh]
      case name.name s1 s2 =>
        simp only [Node.name.injEq] at hh
        rw [hh]
      case array.array es es' =>
        simp only [Node.array.injEq] at hh
        have hsz : sizeOf es < k := by
          simp only [Node.array.sizeOf_spec] at hk; omega
        simp only [evalNode]
        rcases exceptToOpt_cases (ihL es es' hsz hh) with ⟨e, e', h1, h2⟩ | ⟨vs, h1, h2⟩
        · rw [h1, h2]; try rfl
        · rw [h1, h2]; try rfl
      case dict.dict ps ps' =>
        simp only [Node.dict.injEq] at hh
        have hsz : sizeOf ps < k := by
          simp only [Node.dict.sizeOf_spec] at hk; omega
        simp only [evalNode]
        rcases exceptToOpt_cases (ihP ps ps' hsz hh) with ⟨e, e', h1, h2⟩ | ⟨vs, h1, h2⟩
        · rw [h1, h2]; try rfl
        · rw [h1, h2]; try rfl
      case constExpr.constExpr ts ts' =>
        simp only [Node.constExpr.injEq] at hh
        simp only [evalNode]
        exact evaluateExpression_obs env hh
      case constDecl.constDecl nm v nm' v' => rfl
    · intro ns ns' hk hh
      cases ns with
      | nil =>
        cases ns' with
        | nil => rfl
        | cons a b => simp [stripNodeList] at hh
      | cons n t =>
        cases ns' with
        | nil => simp [stripNodeList] at hh
        | cons n' t' =>
          simp only [stripNodeList, List.cons.injEq] at hh
          obtain ⟨h1, h2⟩ := hh
          have hszn : sizeOf n < k := by simp at hk; omega
          have hszt : sizeOf t < k := by simp at hk; omega
          simp only [evalNodeList]
          rcases exceptToOpt_cases (ihN n n' hszn h1) with ⟨e, e', e1, e2⟩ | ⟨v, e1, e2⟩
          · rw [e1, e2]; try rfl
          · rw [e1, e2]
            simp only [except_ok_bind]
            rcases exceptToOpt_cases (ihL t t' hszt h2) with ⟨e, e', f1, f2⟩ | ⟨vs, f1, f2⟩
            · rw [f1, f2]; try rfl
            · rw [f1, f2]; try rfl
    · intro ps ps' hk hh
      cases ps with
      | nil =>
        cases ps' with
        | nil => rfl
        | cons a b => obtain ⟨k1, n1⟩ := a; simp [stripNodePairs] at hh
      | cons p t =>
        obtain ⟨ky, n⟩ := p
        cases ps' with
        | nil => simp [stripNodePairs] at hh
        | cons p' t' =>
          obtain ⟨ky', n'⟩ := p'
          simp only [stripNodePairs, List.cons.injEq, Prod.mk.injEq] at hh
          obtain ⟨⟨hkk, h1⟩, h2⟩ := hh
          have hszn : sizeOf n < k := by simp at hk; omega
          have hszt : sizeOf t < k := by simp at hk; omega
          simp only [evalNodePairs]
          rcases exceptToOpt_cases (ihN n n' hszn h1) with ⟨e, e', e1, e2⟩ | ⟨v, e1, e2⟩
          · rw [e1, e2]; try rfl
          · rw [e1, e2]
            simp only [except_ok_bind]
            rcases exceptToOpt_cases (ihP t t' hszt h2) with ⟨e, e', f1, f2⟩ | ⟨vs, f1, f2⟩
            · rw [f1, f2]; try rfl
            · rw [f1, f2, hkk]

theorem evalNode_obs (env : List (String × Value)) (n n' : Node)
    (hh : stripNode n = stripNode n') :
    exceptToOpt (evalNode env n) = exceptToOpt (evalNode env n') :=
  (evalNode_obs_aux env (sizeOf n + 1)).1 n n' (Nat.lt_succ_self _) hh

theorem evaluateAllGo_obs : ∀ (ns ns' : List Node) (results env : List (String × Value)),
    stripNodeList ns = stripNodeList ns' →
    exceptToOpt (evaluateAllGo ns results env) = exceptToOpt (evaluateAllGo ns' results env) := by
  intro ns
  induction ns with
  | nil =>
    intro ns' results env h
    cases ns' with
    | nil => rfl
    | cons a b => simp [stripNodeList] at h
  | cons n t ih =>
    intro ns' results env h
    cases ns' with
    | nil => simp [stripNodeList] at h
    | cons n' t' =>
      simp only [stripNodeList, List.cons.injEq] at h
      obtain ⟨hh, ht⟩ := h
      cases n <;> cases n' <;> (try (simp only [stripNode] at hh)) <;>
        (try exact Node.noConfusion hh)
      case number.number v v' =>
        simp only [Node.number.injEq] at hh
        subst hh
        simp only [evaluateAllGo, evalNode, except_ok_bind]
        exact ih t' _ _ ht
      case name.name s1 s2 =>
        simp only [Node.name.injEq] at hh
        subst hh
        simp only [evaluateAllGo, evalNode]
        cases hlk : pyLookup env s1 with
        | none => rfl
        | some v =>
          simp only [except_ok_bind]
          exact ih t' _ _ ht
      case array.array es es' =>
        have hsn : stripNode (Node.array es) = stripNode (Node.array es') := by
          simp only [stripNode]; exact hh
        simp only [evaluateAllGo]
        rcases exceptToOpt_cases (evalNode_obs env _ _ hsn) with ⟨e, e', h1, h2⟩ | ⟨v, h1, h2⟩
        · rw [h1, h2]; try rfl
        · rw [h1, h2]
          simp only [except_ok_bind]
          exact ih t' _ _ ht
      case dict.dict ps ps' =>
        have hsn : stripNode (Node.dict ps) = stripNode (Node.dict ps') := by
          simp only [stripNode]; exact hh
        simp only [evaluateAllGo]
        rcases exceptToOpt_cases (evalNode_obs env _ _ hsn) with ⟨e, e', h1, h2⟩ | ⟨v, h1, h2⟩
        · rw [h1, h2]; try rfl
        · rw [h1, h2]
          simp only [except_ok_bind]
          exact ih t' _ _ ht
      case constExpr.constExpr ets ets' =>
        have hsn : stripNode (Node.constExpr ets) = stripNode (Node.constExpr ets') := by
          simp only [stripNode]; exact hh
        simp only [evaluateAllGo]
        rcases exceptToOpt_cases (evalNode_obs env _ _ hsn) with ⟨e, e', h1, h2⟩ | ⟨v, h1, h2⟩
        · rw [h1, h2]; try rfl
        · rw [h1, h2]
          simp only [except_ok_bind]
          exact ih t' _ _ ht
      case constDecl.constDecl nm vn nm' vn' =>
        simp only [Node.constDecl.injEq] at hh
        obtain ⟨rfl, hv⟩ := hh
        simp only [evaluateAllGo]
        rcases exceptToOpt_cases (evalNode_obs env vn vn' hv) with ⟨e, e', h1, h2⟩ | ⟨v, h1, h2⟩
        · rw [h1, h2]; try rfl
        · rw [h1, h2]
          simp only [except_ok_bind]
          exact ih t' _ _ ht

theorem translateTokens_obs {ts ts' : List Token} (h : ts.map stripTok = ts'.map stripTok) :
    exceptToOpt (translateTokens ts) = exceptToOpt (translateTokens ts') := by
  have hlen : ts.length = ts'.length := by
    have h2 := congrArg List.length h
    simpa using h2
  have hfuel : parseFuel ts = parseFuel ts' := by simp [parseFuel, hlen]
  have hp : obsParseL (parseProgram (parseFuel ts) ts)
      = obsParseL (parseProgram (parseFuel ts') ts') := by
    rw [← hfuel]
    exact (parse_obs (parseFuel ts)).2.2.2.2.2.2.2.2 ts ts' h
  rcases obsParseL_cases hp with ⟨e, e', h1, h2⟩ | ⟨ns, r, ns', r', h1, h2, hns, hr⟩
  · simp only [translateTokens, parseTokens, h1, h2, Except.map]
    rfl
  · simp only [translateTokens, parseTokens, h1, h2, Except.map]
    rcases exceptToOpt_cases (evaluateAllGo_obs ns ns' [] [] hns) with ⟨e, e', f1, f2⟩ | ⟨p, f1, f2⟩
    · simp only [evaluateAll, f1, f2]
      rfl
    · obtain ⟨results, envf⟩ := p
      simp only [evaluateAll, f1, f2]
      try rfl

/-- **C9** (amended).  Comment invariance holds in the following form:
(1) a line comment `::` followed by any newline-free text, inserted so that
the next character of the program is a newline (or the end of input), lexes
to the same token stream — up to token positions — as the program without
it; (2) likewise a block comment `<# ... #>` whose body does not contain
the closing marker; (3) the parse/evaluate stages cannot distinguish token
streams that agree up to positions, so such an insertion never changes a
successful translation result; (4) consequently any two source texts whose
token streams agree up to positions translate to the same resolved output.
The claim as literally stated — insertion at ANY whitespace-legal position —
is false: a line comment inserted mid-line swallows the rest of the line
(see the counterexample theorem). -/
theorem comment_insertion_invariance :
    (∀ (body rest : List Char) (l c l' c' : Nat), (∀ x ∈ body, x ≠ '\n') →
      (rest = [] ∨ rest.head? = some '\n') →
      obsLex (lexLoop (':' :: ':' :: (body ++ rest)) l c) = obsLex (lexLoop rest l' c')) ∧
    (∀ (body rest : List Char) (l c l' c' : Nat), noCloseMarker body = true →
      obsLex (lexLoop ('<' :: '#' :: (body ++ '#' :: '>' :: rest)) l c) =
        obsLex (lexLoop rest l' c')) ∧
    (∀ ts ts' : List Token, ts.map stripTok = ts'.map stripTok →
      exceptToOpt (translateTokens ts) = exceptToOpt (translateTokens ts')) ∧
    (∀ s s' : List Char, obsLex (tokenize s) = obsLex (tokenize s') →
      exceptToOpt (translateProg s) = exceptToOpt (translateProg s')) := by
  refine ⟨lexLoop_line_comment, lexLoop_block_comment, fun ts ts' h => translateTokens_obs h, ?_⟩
  intro s s' hlex
  cases h1 : tokenize s with
  | error e =>
    cases h2 : tokenize s' with
    | error e' =>
      simp only [translateProg, h1, h2]
      rfl
    | ok ts2 =>
      rw [h1, h2] at hlex
      simp [obsLex] at hlex
  | ok ts1 =>
    cases h2 : tokenize s' with
    | error e' =>
      rw [h1, h2] at hlex
      simp [obsLex] at hlex
    | ok ts2 =>
      rw [h1, h2] at hlex
      simp only [obsLex, Except.ok.injEq] at hlex
      simp only [translateProg, h1, h2]
      exact translateTokens_obs hlex

/-- **C9** (counterexample to the literal claim): the start of the program
`x <- 1.0;` is a position where whitespace is legal, yet inserting the
single-line comment `::c` there — with the comment extending to the end of
the line, exactly as specified — yields `::cx <- 1.0;`, which translates to
the empty output mapping instead of `{x: 1.0}`. -/
theorem single_line_comment_changes_output :
    translateProg ("x <- 1.0;".toList) = .ok [("x", Value.num 1)] ∧
    translateProg ("::cx <- 1.0;".toList) = .ok [] ∧
    (Except.ok [] : Except TransErr (List (String × Value))) ≠
      .ok [("x", Value.num 1)] := by
  refine ⟨?_, rfl, by simp⟩
  have h : translateProg ("x <- 1.0;".toList)
      = .ok [("x", Value.num (litToRat "1.0".toList))] := rfl
  rw [h, litToRat_one]

theorem comment_insertion_invariance_witness :
    obsLex (lexLoop (':' :: ':' :: (['c'] ++ ('\n' :: "x <- 2.0;".toList))) 1 1)
      = obsLex (lexLoop ('\n' :: "x <- 2.0;".toList) 1 1) ∧
    exceptToOpt (translateProg (':' :: ':' :: (['c'] ++ ('\n' :: "x <- 2.0;".toList))))
      = exceptToOpt (translateProg ('\n' :: "x <- 2.0;".toList)) :=
  ⟨comment_insertion_invariance.1 ['c'] ('\n' :: "x <- 2.0;".toList) 1 1 1 1
      (by decide) (Or.inr rfl),
   comment_insertion_invariance.2.2.2 _ _
    (comment_insertion_invariance.1 ['c'] ('\n' :: "x <- 2.0;".toList) 1 1 1 1
      (by decide) (Or.inr rfl))⟩

end CT
